import Mathlib

/-!
Shallow embedding of the ORB (Opening Range Breakout) grid-search backtester.

The embedding follows `src/backtest/backtest_engine.py`,
`src/backtest/data_loader.py`, `src/backtest/metrics.py` and
`src/backtest/parameter_grid.py`:

* Python floats are modelled as exact rationals (`ℚ`);
* time-of-day strings `"HH:MM:SS"` are modelled as natural numbers,
  because lexicographic comparison of fixed-width time strings agrees with
  the numeric order of the times they denote;
* trading-day date strings are modelled as natural numbers (the loader's
  `trading_days` list is sorted and duplicate-free, so dates are in
  order-preserving bijection with naturals);
* Python dicts keyed by dates / OR durations are modelled as association
  lists with a `dictGet` lookup mirroring `dict.get`;
* numpy `np.where(mask)[0][0]`-style first-index searches are modelled by
  `firstHit`, with the `-1` sentinel kept as an integer result;
* fallible indexing that is unreachable in the pipeline (e.g.
  `or_data[dc.date_str]` for a cache that was built only for days present
  in `or_data`) is modelled by an `Option` lookup whose `none` branch
  skips the day.
-/

/-- Trade direction of a single simulated trade (`"LONG"` / `"SHORT"`). -/
inductive Direction where
  | long
  | short
deriving DecidableEq, Repr

/-- The `exit_reason` values produced by the simulator. -/
inductive ExitReason where
  | target
  | stopLoss
  | timeExit
deriving DecidableEq, Repr

/-- The `StopLossType` enum from `parameter_grid.py`. -/
inductive StopLossType where
  | fixed
  | trailing
  | atrBased
deriving DecidableEq, Repr

/-- The `TradeDirection` enum from `parameter_grid.py`. -/
inductive TradeDirection where
  | longOnly
  | shortOnly
  | both
deriving DecidableEq, Repr

/-- The `EntryConfirmation` enum from `parameter_grid.py`. -/
inductive EntryConfirmation where
  | immediate
  | candleClose
  | volumeConfirm
deriving DecidableEq, Repr

/-- One 1-minute OHLCV bar of a trading day, as used by the engine:
`time_str` (as a numeric time-of-day), `datetime` (as a numeric absolute
timestamp) and the four price/volume columns. -/
structure Bar where
  timeOfDay : ℕ
  dt : ℕ
  high : ℚ
  low : ℚ
  close : ℚ
  volume : ℚ
deriving DecidableEq, Repr

/-- Per-day opening-range statistics `(or_high, or_low, or_avg_vol, or_pct)`. -/
abbrev ORInfo : Type := ℚ × ℚ × ℚ × ℚ

/-- Association-list model of Python `dict.get`: the value at the first
matching key, `none` if the key is absent. -/
def dictGet {α : Type} : List (ℕ × α) → ℕ → Option α
  | [], _ => none
  | (k, v) :: rest, key => if k = key then some v else dictGet rest key

/-- The `StrategyParams` from `parameter_grid.py` (dates/times numeric). -/
structure StrategyParams where
  orMinutes : ℕ
  targetMultiplier : ℚ
  stopLossType : StopLossType
  tradeDirection : TradeDirection
  exitTime : ℕ
  maxOrFilterPct : ℚ
  entryConfirmation : EntryConfirmation
  trailingStopPct : ℚ := 1/2
  atrMultiplier : ℚ := 3/2
  atrPeriod : ℕ := 14
deriving DecidableEq, Repr

/-- The `StockData` from `data_loader.py`: per-day bar groups, sorted trading
days, precomputed opening ranges per OR duration, and daily ATR. -/
structure StockData where
  stockCode : String
  tradingDays : List ℕ
  dayGroups : List (ℕ × List Bar)
  openingRanges : List (ℕ × List (ℕ × ORInfo))
  dailyAtr : List (ℕ × ℚ)
deriving Repr

/-- The `Trade` dataclass from `metrics.py`. -/
structure Trade where
  stockCode : String
  date : ℕ
  direction : Direction
  entryTime : ℕ
  entryPrice : ℚ
  exitTime : ℕ
  exitPrice : ℚ
  quantity : ℤ
  stopLossInitial : ℚ
  stopLossFinal : ℚ
  targetPrice : ℚ
  orHigh : ℚ
  orLow : ℚ
  exitReason : ExitReason
  grossPnl : ℚ
  costs : ℚ
  netPnl : ℚ
  riskAmount : ℚ
  rMultiple : ℚ
deriving DecidableEq, Repr

/-- The `DayCache` from `backtest_engine.py`: parallel arrays for one day's
post-OR candles plus the six precomputed first-entry indices. -/
structure DayCache where
  dateStr : ℕ
  highs : List ℚ
  lows : List ℚ
  closes : List ℚ
  volumes : List ℚ
  datetimes : List ℕ
  nCandles : ℕ
  maxHigh : ℚ
  minLow : ℚ
  firstLongImmIdx : ℤ
  firstShortImmIdx : ℤ
  firstLongCloseIdx : ℤ
  firstShortCloseIdx : ℤ
  firstLongVolIdx : ℤ
  firstShortVolIdx : ℤ
deriving DecidableEq, Repr

/-- Index of the first element satisfying `p`, i.e. `np.where(mask)[0][0]`
when the match set is non-empty. -/
def firstHit {α : Type} (p : α → Bool) : List α → Option ℕ
  | [] => none
  | a :: as => if p a then some 0 else (firstHit p as).map (· + 1)

/-- The `int(hits[0]) if len(hits) > 0 else -1`: numpy first-match index with
the `-1` sentinel. -/
def firstSignalIdx {α : Type} (p : α → Bool) (l : List α) : ℤ :=
  match firstHit p l with
  | some i => (i : ℤ)
  | none => -1

/-- The day-slice mask of `_build_day_caches`:
`(time_str >= or_end_time_str) & (time_str <= exit_time_str)`. -/
def buildDayCacheBars (bars : List Bar) (orEndTime exitTime : ℕ) : List Bar :=
  bars.filter (fun b => decide (orEndTime ≤ b.timeOfDay) && decide (b.timeOfDay ≤ exitTime))

/-- The `array.max()` on a (nonempty in the pipeline) list. -/
def listMax : List ℚ → ℚ
  | [] => 0
  | x :: xs => xs.foldl max x

/-- The `array.min()` on a (nonempty in the pipeline) list. -/
def listMin : List ℚ → ℚ
  | [] => 0
  | x :: xs => xs.foldl min x

/-- The body of `_build_day_caches` that fills one `DayCache` from the
selected bars and the day's OR statistics. -/
def mkDayCache (dateStr : ℕ) (sel : List Bar) (orHigh orLow orAvgVol : ℚ) : DayCache :=
  let highs := sel.map Bar.high
  let lows := sel.map Bar.low
  let closes := sel.map Bar.close
  let volumes := sel.map Bar.volume
  { dateStr := dateStr
    highs := highs
    lows := lows
    closes := closes
    volumes := volumes
    datetimes := sel.map Bar.dt
    nCandles := sel.length
    maxHigh := listMax highs
    minLow := listMin lows
    firstLongImmIdx := firstSignalIdx (fun h => decide (orHigh < h)) highs
    firstShortImmIdx := firstSignalIdx (fun l => decide (l < orLow)) lows
    firstLongCloseIdx := firstSignalIdx (fun c => decide (orHigh < c)) closes
    firstShortCloseIdx := firstSignalIdx (fun c => decide (c < orLow)) closes
    firstLongVolIdx :=
      if 0 < orAvgVol then
        firstSignalIdx (fun cv => decide (orHigh < cv.1) && decide (3/2 * orAvgVol < cv.2))
          (closes.zip volumes)
      else -1
    firstShortVolIdx :=
      if 0 < orAvgVol then
        firstSignalIdx (fun cv => decide (cv.1 < orLow) && decide (3/2 * orAvgVol < cv.2))
          (closes.zip volumes)
      else -1 }

/-- The `ORBSimulator._build_day_caches`: one `DayCache` per trading day that
has OR statistics and at least one bar in the `[or_end, exit]` slice. -/
def buildDayCaches (sd : StockData) (orData : List (ℕ × ORInfo))
    (orEndTime exitTime : ℕ) : List DayCache :=
  sd.tradingDays.filterMap (fun dateStr =>
    match dictGet orData dateStr with
    | none => none
    | some (orHigh, orLow, orAvgVol, _) =>
      match dictGet sd.dayGroups dateStr with
      | none => none
      | some dayBars =>
        if dayBars.isEmpty then none
        else
          let sel := buildDayCacheBars dayBars orEndTime exitTime
          if sel.isEmpty then none
          else some (mkDayCache dateStr sel orHigh orLow orAvgVol))

/-- The precomputed long-entry index for a confirmation type. -/
def longIdxFor (dc : DayCache) (confirmation : EntryConfirmation) : ℤ :=
  match confirmation with
  | .immediate => dc.firstLongImmIdx
  | .candleClose => dc.firstLongCloseIdx
  | .volumeConfirm => dc.firstLongVolIdx

/-- The precomputed short-entry index for a confirmation type. -/
def shortIdxFor (dc : DayCache) (confirmation : EntryConfirmation) : ℤ :=
  match confirmation with
  | .immediate => dc.firstShortImmIdx
  | .candleClose => dc.firstShortCloseIdx
  | .volumeConfirm => dc.firstShortVolIdx

/-- The `ORBSimulator._find_entry`: pick the precomputed first-entry index for
the chosen confirmation on each admissible side, then take whichever fires
first (ties go to LONG via `long_idx <= short_idx`). Entry price is the OR
boundary for IMMEDIATE and the bar's close otherwise. -/
def findEntry (dc : DayCache) (orHigh orLow : ℚ)
    (confirmation : EntryConfirmation) (allowLong allowShort : Bool) :
    Option (Direction × ℚ × ℕ) :=
  let longIdx : ℤ := if allowLong then longIdxFor dc confirmation else -1
  let shortIdx : ℤ := if allowShort then shortIdxFor dc confirmation else -1
  if 0 ≤ longIdx ∧ 0 ≤ shortIdx then
    if longIdx ≤ shortIdx then
      if confirmation = .immediate then
        some (.long, orHigh, longIdx.toNat)
      else
        some (.long, dc.closes.getD longIdx.toNat 0, longIdx.toNat)
    else
      if confirmation = .immediate then
        some (.short, orLow, shortIdx.toNat)
      else
        some (.short, dc.closes.getD shortIdx.toNat 0, shortIdx.toNat)
  else if 0 ≤ longIdx then
    if confirmation = .immediate then
      some (.long, orHigh, longIdx.toNat)
    else
      some (.long, dc.closes.getD longIdx.toNat 0, longIdx.toNat)
  else if 0 ≤ shortIdx then
    if confirmation = .immediate then
      some (.short, orLow, shortIdx.toNat)
    else
      some (.short, dc.closes.getD shortIdx.toNat 0, shortIdx.toNat)
  else
    none

/-- First stop-loss hit index of `_find_exit_vectorized`: the scan runs on
the arrays sliced from `start = entry_idx + 1`, and the position found in
the slice is shifted back by `start`. -/
def slIdxOf (dc : DayCache) (direction : Direction) (start : ℕ) (stopLoss : ℚ) : ℤ :=
  let hit :=
    match direction with
    | .long => firstHit (fun l => decide (l ≤ stopLoss)) (dc.lows.drop start)
    | .short => firstHit (fun h => decide (stopLoss ≤ h)) (dc.highs.drop start)
  match hit with
  | some i => (i : ℤ) + start
  | none => -1

/-- First target hit index of `_find_exit_vectorized` (`-1` when the
target is disabled, i.e. `target_price <= 0`). -/
def tgtIdxOf (dc : DayCache) (direction : Direction) (start : ℕ) (targetPrice : ℚ) : ℤ :=
  if 0 < targetPrice then
    let hit :=
      match direction with
      | .long => firstHit (fun h => decide (targetPrice ≤ h)) (dc.highs.drop start)
      | .short => firstHit (fun l => decide (l ≤ targetPrice)) (dc.lows.drop start)
    match hit with
    | some i => (i : ℤ) + start
    | none => -1
  else -1

/-- The `ORBSimulator._find_exit_vectorized` for FIXED and ATR stops.
Returns `(exit_price, exit_idx, exit_reason, sl_final)`. -/
def findExitVectorized (dc : DayCache) (direction : Direction) (entryIdx : ℕ)
    (stopLoss targetPrice : ℚ) : ℚ × ℕ × ExitReason × ℚ :=
  let start := entryIdx + 1
  if dc.nCandles ≤ start then
    (dc.closes.getD entryIdx 0, entryIdx, .timeExit, stopLoss)
  else
    let slIdx := slIdxOf dc direction start stopLoss
    let tgtIdx := tgtIdxOf dc direction start targetPrice
    if 0 ≤ slIdx ∧ 0 ≤ tgtIdx then
      if slIdx ≤ tgtIdx then
        (stopLoss, slIdx.toNat, .stopLoss, stopLoss)
      else
        (targetPrice, tgtIdx.toNat, .target, stopLoss)
    else if 0 ≤ slIdx then
      (stopLoss, slIdx.toNat, .stopLoss, stopLoss)
    else if 0 ≤ tgtIdx then
      (targetPrice, tgtIdx.toNat, .target, stopLoss)
    else
      (dc.closes.getD (dc.nCandles - 1) 0, dc.nCandles - 1, .timeExit, stopLoss)

/-- The `peak` / trailing-stop update of `_find_exit_trailing` for a LONG
position on one candle: a new high ratchets the stop to
`peak * (1 - trailing_mult)` when that tightens it. -/
def trailUpdateLong (trailingMult peak sl cHigh : ℚ) : ℚ × ℚ :=
  if peak < cHigh then
    let newSl := cHigh * (1 - trailingMult)
    (cHigh, if sl < newSl then newSl else sl)
  else (peak, sl)

/-- The `peak` / trailing-stop update of `_find_exit_trailing` for a SHORT
position on one candle. -/
def trailUpdateShort (trailingMult peak sl cLow : ℚ) : ℚ × ℚ :=
  if cLow < peak then
    let newSl := cLow * (1 + trailingMult)
    (cLow, if newSl < sl then newSl else sl)
  else (peak, sl)

/-- The candle loop of `_find_exit_trailing`, recursing over the remaining
`(high, low)` pairs with the running bar index `i`, `peak` and stop `sl`.
On exhaustion it is the `time_exit` return with the evolved stop. -/
def findExitTrailingAux (direction : Direction) (targetPrice trailingMult : ℚ)
    (lastClose : ℚ) (lastIdx : ℕ) :
    List (ℚ × ℚ) → ℕ → ℚ → ℚ → ℚ × ℕ × ExitReason × ℚ
  | [], _, _, sl => (lastClose, lastIdx, .timeExit, sl)
  | (cHigh, cLow) :: rest, i, peak, sl =>
    match direction with
    | .long =>
      let ps := trailUpdateLong trailingMult peak sl cHigh
      let slHit := cLow ≤ ps.2
      let tgtHit := 0 < targetPrice ∧ targetPrice ≤ cHigh
      if slHit ∧ tgtHit then (ps.2, i, .stopLoss, ps.2)
      else if slHit then (ps.2, i, .stopLoss, ps.2)
      else if tgtHit then (targetPrice, i, .target, ps.2)
      else findExitTrailingAux direction targetPrice trailingMult lastClose lastIdx rest (i + 1) ps.1 ps.2
    | .short =>
      let ps := trailUpdateShort trailingMult peak sl cLow
      let slHit := ps.2 ≤ cHigh
      let tgtHit := 0 < targetPrice ∧ cLow ≤ targetPrice
      if slHit ∧ tgtHit then (ps.2, i, .stopLoss, ps.2)
      else if slHit then (ps.2, i, .stopLoss, ps.2)
      else if tgtHit then (targetPrice, i, .target, ps.2)
      else findExitTrailingAux direction targetPrice trailingMult lastClose lastIdx rest (i + 1) ps.1 ps.2

/-- The `ORBSimulator._find_exit_trailing` for TRAILING stops.
Returns `(exit_price, exit_idx, exit_reason, sl_final)`. -/
def findExitTrailing (dc : DayCache) (direction : Direction) (entryIdx : ℕ)
    (stopLoss targetPrice trailingPct : ℚ) : ℚ × ℕ × ExitReason × ℚ :=
  let start := entryIdx + 1
  if dc.nCandles ≤ start then
    (dc.closes.getD entryIdx 0, entryIdx, .timeExit, stopLoss)
  else
    let peak :=
      match direction with
      | .long => dc.highs.getD entryIdx 0
      | .short => dc.lows.getD entryIdx 0
    let trailingMult := trailingPct / 100
    findExitTrailingAux direction targetPrice trailingMult
      (dc.closes.getD (dc.nCandles - 1) 0) (dc.nCandles - 1)
      ((dc.highs.drop start).zip (dc.lows.drop start)) start peak stopLoss

/-- The `ORBSimulator._initial_stop_loss`. -/
def initialStopLoss (direction : Direction) (entryPrice orHigh orLow atrValue : ℚ)
    (params : StrategyParams) : ℚ :=
  match params.stopLossType with
  | .fixed =>
    match direction with
    | .long => orLow
    | .short => orHigh
  | .trailing =>
    match direction with
    | .long => entryPrice * (1 - params.trailingStopPct / 100)
    | .short => entryPrice * (1 + params.trailingStopPct / 100)
  | .atrBased =>
    if 0 < atrValue then
      match direction with
      | .long => entryPrice - atrValue * params.atrMultiplier
      | .short => entryPrice + atrValue * params.atrMultiplier
    else
      match direction with
      | .long => orLow
      | .short => orHigh

/-- Round-half-to-even to an integer, the behaviour of Python `round`. -/
def roundHalfEven (x : ℚ) : ℤ :=
  let f := ⌊x⌋
  let r := x - f
  if r < 1/2 then f
  else if 1/2 < r then f + 1
  else if 2 ∣ f then f else f + 1

/-- Python `round(x, nd)` on the exact-rational model of floats. -/
def pyRound (nd : ℕ) (x : ℚ) : ℚ :=
  (roundHalfEven (x * 10 ^ nd) : ℚ) / 10 ^ nd

/-- The `ORBSimulator` cost/capital configuration. -/
structure ORBSimulator where
  capital : ℚ := 100000
  maxRiskPerTrade : ℚ := 1000
  brokerageRate : ℚ := 1/10000
  sttRate : ℚ := 25/100000
deriving Repr

/-- The `ORBSimulator._build_trade`: P&L, costs and rounding. -/
def buildTrade (sim : ORBSimulator) (stockCode : String) (dateStr : ℕ)
    (direction : Direction) (entryTime : ℕ) (entryPrice : ℚ) (exitTime : ℕ)
    (exitPrice : ℚ) (quantity : ℤ) (stopLossInitial stopLossFinal : ℚ)
    (targetPrice orHigh orLow : ℚ) (exitReason : ExitReason)
    (riskPerShare : ℚ) : Trade :=
  let grossPnl :=
    match direction with
    | .long => (exitPrice - entryPrice) * quantity
    | .short => (entryPrice - exitPrice) * quantity
  let brokerage := entryPrice * quantity * sim.brokerageRate * 2
  let stt := exitPrice * quantity * sim.sttRate
  let costs := brokerage + stt
  let netPnl := grossPnl - costs
  let riskAmount := riskPerShare * quantity
  let rMultiple := if 0 < riskAmount then netPnl / riskAmount else 0
  { stockCode := stockCode
    date := dateStr
    direction := direction
    entryTime := entryTime
    entryPrice := pyRound 2 entryPrice
    exitTime := exitTime
    exitPrice := pyRound 2 exitPrice
    quantity := quantity
    stopLossInitial := pyRound 2 stopLossInitial
    stopLossFinal := pyRound 2 stopLossFinal
    targetPrice := pyRound 2 targetPrice
    orHigh := pyRound 2 orHigh
    orLow := pyRound 2 orLow
    exitReason := exitReason
    grossPnl := pyRound 2 grossPnl
    costs := pyRound 2 costs
    netPnl := pyRound 2 netPnl
    riskAmount := pyRound 2 riskAmount
    rMultiple := pyRound 4 rMultiple }

/-- The body of `ORBSimulator.run`'s per-day loop: OR filter, entry
selection, stop/size/target computation, exit discovery and trade
construction; `none` when the day is skipped. -/
def simulateDay (sim : ORBSimulator) (sd : StockData) (params : StrategyParams)
    (orData : List (ℕ × ORInfo)) (dc : DayCache) : Option Trade :=
  match dictGet orData dc.dateStr with
  | none => none
  | some (orHigh, orLow, _orAvgVol, orPct) =>
    if 0 < params.maxOrFilterPct ∧ params.maxOrFilterPct < orPct then none
    else
      let allowLong := params.tradeDirection = .longOnly ∨ params.tradeDirection = .both
      let allowShort := params.tradeDirection = .shortOnly ∨ params.tradeDirection = .both
      match findEntry dc orHigh orLow params.entryConfirmation allowLong allowShort with
      | none => none
      | some (direction, entryPrice, entryIdx) =>
        let atrValue := (dictGet sd.dailyAtr dc.dateStr).getD 0
        let stopLoss := initialStopLoss direction entryPrice orHigh orLow atrValue params
        let riskPerShare := |entryPrice - stopLoss|
        if riskPerShare ≤ 0 then none
        else
          let quantity : ℤ :=
            min ⌊sim.maxRiskPerTrade / riskPerShare⌋
              (if 0 < entryPrice then ⌊sim.capital / entryPrice⌋ else 0)
          if quantity ≤ 0 then none
          else
            let targetPrice :=
              if 0 < params.targetMultiplier then
                match direction with
                | .long => entryPrice + riskPerShare * params.targetMultiplier
                | .short => entryPrice - riskPerShare * params.targetMultiplier
              else 0
            let exitResult :=
              if params.stopLossType = .trailing then
                findExitTrailing dc direction entryIdx stopLoss targetPrice
                  params.trailingStopPct
              else
                findExitVectorized dc direction entryIdx stopLoss targetPrice
            let exitPrice := exitResult.1
            let exitIdx := exitResult.2.1
            let exitReason := exitResult.2.2.1
            let slFinal := exitResult.2.2.2
            some (buildTrade sim sd.stockCode dc.dateStr direction
              (dc.datetimes.getD entryIdx 0) entryPrice
              (dc.datetimes.getD exitIdx 0) exitPrice
              quantity stopLoss slFinal targetPrice orHigh orLow exitReason
              riskPerShare)

/-- The `ORBSimulator.run`: look up the OR data for `params.or_minutes`
(returning no trades when it is absent), build the day caches for the
`[or_end, exit]` window and simulate every cached day. -/
def ORBSimulator.run (sim : ORBSimulator) (sd : StockData)
    (params : StrategyParams) : List Trade :=
  match dictGet sd.openingRanges params.orMinutes with
  | none => []
  | some orData =>
    let orEndTime := 9 * 60 + 15 + params.orMinutes
    let dayCaches := buildDayCaches sd orData orEndTime params.exitTime
    dayCaches.filterMap (simulateDay sim sd params orData)

/-- The `PerformanceResult` from `metrics.py`. -/
structure PerformanceResult where
  totalTrades : ℕ
  winningTrades : ℕ
  losingTrades : ℕ
  winRate : ℚ
  totalPnl : ℚ
  netPnl : ℚ
  avgPnlPerTrade : ℚ
  avgWinner : ℚ
  avgLoser : ℚ
  profitFactor : ℚ
  maxDrawdown : ℚ
  maxDrawdownPct : ℚ
  maxConsecutiveLosses : ℕ
  sharpeRatio : ℚ
  sortinoRatio : ℚ
  expectancy : ℚ
  avgRMultiple : ℚ
  calmarRatio : ℚ
  bestTrade : ℚ
  worstTrade : ℚ
  avgHoldingMinutes : ℚ
  compositeScore : ℚ
deriving DecidableEq, Repr

/-- The `Trade.holding_minutes`: minutes between entry and exit timestamps
(timestamps modelled in seconds since the epoch). -/
def holdingMinutes (t : Trade) : ℚ :=
  ((t.exitTime : ℚ) - (t.entryTime : ℚ)) / 60

/-- The `MetricsCalculator._empty_result`. -/
def emptyResult : PerformanceResult :=
  { totalTrades := 0, winningTrades := 0, losingTrades := 0,
    winRate := 0, totalPnl := 0, netPnl := 0, avgPnlPerTrade := 0,
    avgWinner := 0, avgLoser := 0, profitFactor := 0,
    maxDrawdown := 0, maxDrawdownPct := 0, maxConsecutiveLosses := 0,
    sharpeRatio := 0, sortinoRatio := 0, expectancy := 0,
    avgRMultiple := 0, calmarRatio := 0, bestTrade := 0,
    worstTrade := 0, avgHoldingMinutes := 0,
    compositeScore := -999999 }

/-- The loop of `MetricsCalculator._compute_drawdown` over the running
equity curve; returns `(max_drawdown, max_drawdown_pct)`. -/
def computeDrawdown (capital : ℚ) (pnls : List ℚ) : ℚ × ℚ :=
  let step := pnls.foldl
    (fun (acc : ℚ × ℚ × ℚ) pnl =>
      let equity := acc.1 + pnl
      let peak := max acc.2.1 equity
      let dd := peak - equity
      (equity, peak, max acc.2.2 dd))
    (capital, capital, 0)
  let maxDd := step.2.2
  (maxDd, if 0 < capital then maxDd / capital else 0)

/-- The `MetricsCalculator._max_consecutive_losses`. -/
def maxConsecutiveLossesOf (pnls : List ℚ) : ℕ :=
  (pnls.foldl
    (fun (acc : ℕ × ℕ) pnl =>
      if pnl ≤ 0 then (max acc.1 (acc.2 + 1), acc.2 + 1) else (acc.1, 0))
    (0, 0)).1

/-- The `MetricsCalculator._aggregate_daily_pnls`: dict accumulation of P&L by
trade date, values listed in key-insertion order. -/
def aggregateDailyPnls (trades : List Trade) (pnls : List ℚ) : List ℚ :=
  let daily := (trades.zip pnls).foldl
    (fun (acc : List (ℕ × ℚ)) tp =>
      let key := tp.1.date
      match dictGet acc key with
      | some v => acc.map (fun kv => if kv.1 = key then (kv.1, v + tp.2) else kv)
      | none => acc ++ [(key, tp.2)])
    []
  daily.map Prod.snd

/-- The `MetricsCalculator._compute_sharpe`; `sqrtA` stands for `math.sqrt`
(irrational in general, so the model abstracts it). -/
def computeSharpe (sqrtA : ℚ → ℚ) (capital : ℚ) (pnls : List ℚ)
    (trades : List Trade) : ℚ :=
  let dailyPnls := aggregateDailyPnls trades pnls
  if dailyPnls.length < 2 then 0
  else
    let dailyReturns := dailyPnls.map (· / capital)
    let meanRet := dailyReturns.sum / (dailyReturns.length : ℚ)
    let variance := (dailyReturns.map (fun r => (r - meanRet) ^ 2)).sum /
      ((dailyReturns.length : ℚ) - 1)
    let stdRet := if 0 < variance then sqrtA variance else 0
    if stdRet = 0 then 0 else meanRet / stdRet * sqrtA 252

/-- The `MetricsCalculator._compute_sortino`. -/
def computeSortino (sqrtA : ℚ → ℚ) (capital : ℚ) (pnls : List ℚ)
    (trades : List Trade) : ℚ :=
  let dailyPnls := aggregateDailyPnls trades pnls
  if dailyPnls.length < 2 then 0
  else
    let dailyReturns := dailyPnls.map (· / capital)
    let meanRet := dailyReturns.sum / (dailyReturns.length : ℚ)
    let downside := dailyReturns.filter (· < 0)
    if downside.isEmpty then
      if 0 < meanRet then 99999/100 else 0
    else
      let downsideVar := (downside.map (fun r => r ^ 2)).sum / (dailyReturns.length : ℚ)
      let downsideDev := if 0 < downsideVar then sqrtA downsideVar else 0
      if downsideDev = 0 then 0 else meanRet / downsideDev * sqrtA 252

/-- The `MetricsCalculator._compute_calmar`: annualized return over max
drawdown, with `years = days / 365.25 if days > 0 else 1` taken from the
first and last trades' dates (dates modelled in days). -/
def computeCalmar (pnls : List ℚ) (trades : List Trade) (maxDd : ℚ) : ℚ :=
  if maxDd ≤ 0 ∨ trades.isEmpty then 0
  else
    let firstDate := ((trades.head?.map Trade.date).getD 0 : ℕ)
    let lastDate := ((trades.getLast?.map Trade.date).getD 0 : ℕ)
    let days : ℤ := (lastDate : ℤ) - (firstDate : ℤ)
    let years : ℚ := if 0 < days then (days : ℚ) / (1461/4) else 1
    let totalReturn := pnls.sum
    let annualReturn := if 0 < years then totalReturn / years else totalReturn
    annualReturn / maxDd

/-- The `MetricsCalculator._composite_score`. -/
def compositeScore (capital netPnl sharpe profitFactor winRate maxDdPct expectancy : ℚ) : ℚ :=
  let pnlScore := if 0 < capital then netPnl / capital else 0
  let sharpeScore := sharpe
  let pfScore := min profitFactor 10 / 10
  let wrScore := winRate
  let ddScore := max 0 (1 - min maxDdPct 1)
  let expScore := if 0 < capital then expectancy / (capital * (1/100)) else 0
  1/4 * pnlScore + 1/5 * sharpeScore + 3/20 * pfScore +
    3/20 * wrScore + 3/20 * ddScore + 1/10 * expScore

/-- The `MetricsCalculator.compute`: all metrics from a trade list, the empty
list short-circuiting to `emptyResult`. -/
def MetricsCalculator.compute (sqrtA : ℚ → ℚ) (capital : ℚ)
    (trades : List Trade) : PerformanceResult :=
  if trades.isEmpty then emptyResult
  else
    let total := trades.length
    let pnls := trades.map Trade.netPnl
    let grossPnls := trades.map Trade.grossPnl
    let rMultiples := trades.map Trade.rMultiple
    let winners := pnls.filter (0 < ·)
    let losers := pnls.filter (· ≤ 0)
    let winningCount := winners.length
    let losingCount := losers.length
    let winRate : ℚ := if 0 < total then winningCount / total else 0
    let totalPnl := grossPnls.sum
    let netPnl := pnls.sum
    let avgPnl : ℚ := if 0 < total then netPnl / total else 0
    let avgWinner : ℚ := if 0 < winningCount then winners.sum / winningCount else 0
    let avgLoser : ℚ := if 0 < losingCount then losers.sum / losingCount else 0
    let grossProfits := (pnls.filter (0 < ·)).sum
    let grossLosses := |(pnls.filter (· ≤ 0)).sum|
    let profitFactor : ℚ :=
      if 0 < grossLosses then grossProfits / grossLosses
      else if 0 < grossProfits then 99999/100 else 0
    let dd := computeDrawdown capital pnls
    let maxDd := dd.1
    let maxDdPct := dd.2
    let maxConsec := maxConsecutiveLossesOf pnls
    let sharpe := computeSharpe sqrtA capital pnls trades
    let sortino := computeSortino sqrtA capital pnls trades
    let lossRate : ℚ := if 0 < total then losingCount / total else 0
    let expectancy := avgWinner * winRate - |avgLoser| * lossRate
    let avgR : ℚ := if 0 < total then rMultiples.sum / total else 0
    let calmar := computeCalmar pnls trades maxDd
    let bestTrade := listMax pnls
    let worstTrade := listMin pnls
    let holdingTimes := trades.map holdingMinutes
    let avgHolding : ℚ := if 0 < total then holdingTimes.sum / total else 0
    let composite := compositeScore capital netPnl sharpe profitFactor winRate
      maxDdPct expectancy
    { totalTrades := total
      winningTrades := winningCount
      losingTrades := losingCount
      winRate := pyRound 4 winRate
      totalPnl := pyRound 2 totalPnl
      netPnl := pyRound 2 netPnl
      avgPnlPerTrade := pyRound 2 avgPnl
      avgWinner := pyRound 2 avgWinner
      avgLoser := pyRound 2 avgLoser
      profitFactor := pyRound 2 (min profitFactor (99999/100))
      maxDrawdown := pyRound 2 maxDd
      maxDrawdownPct := pyRound 4 maxDdPct
      maxConsecutiveLosses := maxConsec
      sharpeRatio := pyRound 4 sharpe
      sortinoRatio := pyRound 4 sortino
      expectancy := pyRound 2 expectancy
      avgRMultiple := pyRound 4 avgR
      calmarRatio := pyRound 4 calmar
      bestTrade := pyRound 2 bestTrade
      worstTrade := pyRound 2 worstTrade
      avgHoldingMinutes := pyRound 1 avgHolding
      compositeScore := pyRound 4 composite }

/-- Daily OHLC aggregate of `_compute_daily_atr`:
`(high.max(), low.min(), close.iloc[-1])` of one day's bars (days are
nonempty in the pipeline; the empty case is a dummy). -/
def dailyAgg (bars : List Bar) : ℚ × ℚ × ℚ :=
  (listMax (bars.map Bar.high), listMin (bars.map Bar.low),
    (bars.getLast?.map Bar.close).getD 0)

/-- The true-range loop of `_compute_daily_atr`: `high - low` on the first
day, `max(high - low, |high - prev_close|, |low - prev_close|)` after. -/
def trueRangesAux : Option ℚ → List (ℚ × ℚ × ℚ) → List ℚ
  | _, [] => []
  | prevClose, (high, low, close) :: rest =>
    let tr :=
      match prevClose with
      | none => high - low
      | some pc => max (high - low) (max |high - pc| |low - pc|)
    tr :: trueRangesAux (some close) rest

/-- True ranges of a list of daily `(high, low, close)` aggregates. -/
def trueRanges (dailies : List (ℚ × ℚ × ℚ)) : List ℚ :=
  trueRangesAux none dailies

/-- The `result[key] = value` on the map model of a dict keyed by trading-day
position. -/
def insertK (m : ℕ → Option ℚ) (k : ℕ) (v : ℚ) : ℕ → Option ℚ :=
  fun j => if j = k then some v else m j

/-- The `DataLoader._compute_daily_atr`, keyed by the position of the day in
`trading_days` (which is sorted and duplicate-free): empty when there are
fewer than `period + 1` trading days; otherwise Wilder smoothing from day
`period` on, and the running simple average of the true ranges for the
first `period` days. -/
def computeDailyATR (dayGroups : List (ℕ × List Bar)) (tradingDays : List ℕ)
    (period : ℕ) : ℕ → Option ℚ :=
  if tradingDays.length < period + 1 then fun _ => none
  else
    let dailies := tradingDays.map (fun d => dailyAgg ((dictGet dayGroups d).getD []))
    let trs := trueRanges dailies
    let atr0 := (trs.take period).sum / (period : ℚ)
    let afterWilder :=
      ((List.range' period (tradingDays.length - period)).foldl
        (fun (acc : ℚ × (ℕ → Option ℚ)) i =>
          let atr := (acc.1 * ((period : ℚ) - 1) + trs.getD i 0) / (period : ℚ)
          (atr, insertK acc.2 i atr))
        (atr0, fun _ => none)).2
    (List.range (min period tradingDays.length)).foldl
      (fun m i => insertK m i ((trs.take (i + 1)).sum / ((i : ℚ) + 1)))
      afterWilder

/-- The `ParameterGrid.group_by_or_minutes`'s
`groups.setdefault(p.or_minutes, []).append(p)`: append to the existing
key's list, or append a new singleton group at the end (Python dicts keep
key-insertion order). -/
def insertAppend : List (ℕ × List StrategyParams) → ℕ → StrategyParams →
    List (ℕ × List StrategyParams)
  | [], k, p => [(k, [p])]
  | (k', l) :: rest, k, p =>
    if k' = k then (k', l ++ [p]) :: rest else (k', l) :: insertAppend rest k p

/-- The `ParameterGrid.group_by_or_minutes`. -/
def groupByOrMinutes (paramsList : List StrategyParams) :
    List (ℕ × List StrategyParams) :=
  paramsList.foldl (fun groups p => insertAppend groups p.orMinutes p) []

/-- The `idx` is the first position `< n` satisfying `P`, with `-1` meaning no
position satisfies `P` (the contract of the six DayCache entry indices). -/
def isFirstIdx (n : ℕ) (P : ℕ → Prop) (idx : ℤ) : Prop :=
  (idx = -1 ∨ (0 ≤ idx ∧ idx.toNat < n)) ∧
  (0 ≤ idx → P idx.toNat ∧ ∀ j < idx.toNat, ¬ P j) ∧
  (idx = -1 → ∀ j < n, ¬ P j)

/-- A two-bar day used to instantiate the cache-index theorem. -/
def c1bars : List Bar :=
  [{ timeOfDay := 930, dt := 1, high := 101, low := 99, close := 100, volume := 5 },
   { timeOfDay := 931, dt := 2, high := 103, low := 97, close := 102, volume := 7 }]

def c1sd : StockData :=
  { stockCode := "AAA", tradingDays := [0], dayGroups := [(0, c1bars)],
    openingRanges := [], dailyAtr := [] }

def c1or : List (ℕ × ORInfo) := [(0, (100, 98, 4, 1))]

def c1dc : DayCache := mkDayCache 0 c1bars 100 98 4

/-- A three-bar day whose second bar touches both the stop and the target. -/
def c2dc : DayCache :=
  mkDayCache 0
    [{ timeOfDay := 930, dt := 1, high := 101, low := 99, close := 100, volume := 5 },
     { timeOfDay := 931, dt := 2, high := 103, low := 97, close := 102, volume := 7 },
     { timeOfDay := 932, dt := 3, high := 104, low := 97, close := 103, volume := 2 }]
    100 98 4

/-- A one-bar day breaking out on both sides at index 0 (an exact tie). -/
def c3dc : DayCache :=
  mkDayCache 0
    [{ timeOfDay := 930, dt := 1, high := 101, low := 97, close := 99, volume := 5 }]
    100 98 4

/-- A bar whose time-of-day equals the exit time exactly. -/
def c4bar : Bar := { timeOfDay := 900, dt := 1, high := 10, low := 9, close := 9, volume := 1 }

/-- A single trading day with one bar: fewer than `period + 1` days. -/
def c5groups : List (ℕ × List Bar) :=
  [(0, [{ timeOfDay := 930, dt := 1, high := 10, low := 8, close := 9, volume := 1 }])]

/-- A minimal trade at a given date (only the date matters to Calmar). -/
def c6trade (d : ℕ) : Trade :=
  { stockCode := "AAA", date := d, direction := .long, entryTime := 0,
    entryPrice := 100, exitTime := 60, exitPrice := 101, quantity := 1,
    stopLossInitial := 99, stopLossFinal := 99, targetPrice := 0,
    orHigh := 100, orLow := 99, exitReason := .timeExit, grossPnl := 1,
    costs := 0, netPnl := 1, riskAmount := 1, rMultiple := 1 }

def c9sd : StockData :=
  { stockCode := "AAA", tradingDays := [], dayGroups := [],
    openingRanges := [], dailyAtr := [] }

def c9params : StrategyParams :=
  { orMinutes := 15, targetMultiplier := 2, stopLossType := .fixed,
    tradeDirection := .both, exitTime := 914, maxOrFilterPct := 0,
    entryConfirmation := .immediate }

/-- The concatenation of all group values. -/
def groupVals (gs : List (ℕ × List StrategyParams)) : List StrategyParams :=
  (gs.map Prod.snd).join

/-- The vectorized exit decision on a pair list (for LONG the stop fires
on the pair's low and the target on its high; mirrored for SHORT). -/
def vecScan (stopP tgtP : ℚ × ℚ → Bool) (tgtEnabled : Bool) (tgt sl lastClose : ℚ)
    (lastIdx : ℕ) (pairs : List (ℚ × ℚ)) (i0 : ℕ) : ℚ × ℕ × ExitReason × ℚ :=
  match firstHit stopP pairs, (if tgtEnabled then firstHit tgtP pairs else none) with
  | some a, some b =>
    if a ≤ b then (sl, i0 + a, .stopLoss, sl) else (tgt, i0 + b, .target, sl)
  | some a, none => (sl, i0 + a, .stopLoss, sl)
  | none, some b => (tgt, i0 + b, .target, sl)
  | none, none => (lastClose, lastIdx, .timeExit, sl)

/-- A day where a later bar makes a new high: the trailing stop ratchets. -/
def c7dc : DayCache :=
  mkDayCache 0
    [{ timeOfDay := 930, dt := 1, high := 101, low := 99, close := 100, volume := 5 },
     { timeOfDay := 931, dt := 2, high := 103, low := 99, close := 102, volume := 7 },
     { timeOfDay := 932, dt := 3, high := 104, low := 99, close := 103, volume := 2 }]
    100 98 4

def c7pTrail : StrategyParams :=
  { orMinutes := 15, targetMultiplier := 0, stopLossType := .trailing,
    tradeDirection := .both, exitTime := 914, maxOrFilterPct := 0,
    entryConfirmation := .immediate, trailingStopPct := 0 }

def c7pFixed : StrategyParams :=
  { orMinutes := 15, targetMultiplier := 0, stopLossType := .fixed,
    tradeDirection := .both, exitTime := 914, maxOrFilterPct := 0,
    entryConfirmation := .immediate, trailingStopPct := 0 }

/-- A day where no bar after entry makes a new high. -/
def c7wdc : DayCache :=
  mkDayCache 0
    [{ timeOfDay := 930, dt := 1, high := 101, low := 99, close := 100, volume := 5 },
     { timeOfDay := 931, dt := 2, high := 100, low := 99, close := 99, volume := 7 },
     { timeOfDay := 932, dt := 3, high := 99, low := 97, close := 98, volume := 2 }]
    100 98 4

/-- A day whose last bar sits exactly at the exit time. -/
def c4bars2 : List Bar :=
  [{ timeOfDay := 850, dt := 1, high := 11, low := 9, close := 10, volume := 3 },
   { timeOfDay := 900, dt := 2, high := 12, low := 10, close := 11, volume := 4 }]

def c4sd : StockData :=
  { stockCode := "AAA", tradingDays := [0], dayGroups := [(0, c4bars2)],
    openingRanges := [], dailyAtr := [] }

def c4or2 : List (ℕ × ORInfo) := [(0, (10, 9, 1, 1))]

def c4dc : DayCache := mkDayCache 0 c4bars2 10 9 1

lemma firstHit_some_lt_length {α : Type} (p : α → Bool) :
    ∀ (l : List α) (i : ℕ), firstHit p l = some i → i < l.length := by
  intro l
  induction l with
  | nil => intro i h; simp [firstHit] at h
  | cons a as ih =>
    intro i h
    by_cases hp : p a
    · simp [firstHit, hp] at h
      simp [← h]
    · simp [firstHit, hp] at h
      obtain ⟨j, hj, rfl⟩ := h
      have := ih j hj
      simp only [List.length_cons]
      omega

lemma firstHit_some_sat {α : Type} (p : α → Bool) (d : α) :
    ∀ (l : List α) (i : ℕ), firstHit p l = some i → p (l.getD i d) = true := by
  intro l
  induction l with
  | nil => intro i h; simp [firstHit] at h
  | cons a as ih =>
    intro i h
    by_cases hp : p a
    · simp [firstHit, hp] at h
      subst h
      simpa using hp
    · simp [firstHit, hp] at h
      obtain ⟨j, hj, rfl⟩ := h
      simpa using ih j hj

lemma firstHit_some_min {α : Type} (p : α → Bool) (d : α) :
    ∀ (l : List α) (i : ℕ), firstHit p l = some i →
      ∀ j < i, p (l.getD j d) = false := by
  intro l
  induction l with
  | nil => intro i h; simp [firstHit] at h
  | cons a as ih =>
    intro i h j hj
    by_cases hp : p a
    · simp [firstHit, hp] at h
      omega
    · simp [firstHit, hp] at h
      obtain ⟨k, hk, rfl⟩ := h
      cases j with
      | zero => simpa using eq_false_of_ne_true hp
      | succ j' => simpa using ih k hk j' (by omega)

lemma firstHit_none_all {α : Type} (p : α → Bool) (d : α) :
    ∀ (l : List α), firstHit p l = none →
      ∀ j < l.length, p (l.getD j d) = false := by
  intro l
  induction l with
  | nil => intro _ j hj; simp at hj
  | cons a as ih =>
    intro h j hj
    by_cases hp : p a
    · simp [firstHit, hp] at h
    · simp [firstHit, hp] at h
      cases j with
      | zero => simpa using eq_false_of_ne_true hp
      | succ j' =>
        simp at hj
        simpa using ih h j' (by omega)

/-- The `firstSignalIdx` returns exactly the first index of the list whose
element satisfies the predicate, or `-1` when none does. -/
lemma firstSignalIdx_isFirstIdx {α : Type} (p : α → Bool) (l : List α) (d : α) :
    isFirstIdx l.length (fun j => p (l.getD j d) = true) (firstSignalIdx p l) := by
  unfold firstSignalIdx
  cases hfh : firstHit p l with
  | none =>
    simp only [hfh]
    refine ⟨Or.inl rfl, ?_, ?_⟩
    · intro h; omega
    · intro _ j hj
      simpa using firstHit_none_all p d l hfh j hj
  | some i =>
    simp only [hfh]
    refine ⟨Or.inr ⟨Int.ofNat_nonneg i, ?_⟩, ?_, ?_⟩
    · simpa using firstHit_some_lt_length p l i hfh
    · intro _
      constructor
      · simpa using firstHit_some_sat p d l i hfh
      · intro j hj
        simp only [Int.toNat_natCast] at hj
        have := firstHit_some_min p d l i hfh j hj
        intro hq
        rw [hq] at this
        cases this
    · intro h; omega

lemma isFirstIdx_congr {n : ℕ} {P Q : ℕ → Prop} {idx : ℤ}
    (h : isFirstIdx n P idx) (hPQ : ∀ j < n, (P j ↔ Q j)) :
    isFirstIdx n Q idx := by
  obtain ⟨hrange, hpos, hneg⟩ := h
  refine ⟨hrange, ?_, ?_⟩
  · intro h0
    obtain ⟨hsat, hmin⟩ := hpos h0
    have hlt : idx.toNat < n := by
      rcases hrange with h1 | h1
      · omega
      · exact h1.2
    exact ⟨(hPQ _ hlt).mp hsat, fun j hj hQ => hmin j hj ((hPQ j (by omega)).mpr hQ)⟩
  · intro h1 j hj hQ
    exact hneg h1 j hj ((hPQ j hj).mpr hQ)

lemma zip_getD_eq {α β : Type} (da : α) (db : β) :
    ∀ (as : List α) (bs : List β) (j : ℕ), j < as.length → j < bs.length →
      (as.zip bs).getD j (da, db) = (as.getD j da, bs.getD j db) := by
  intro as
  induction as with
  | nil => intro bs j h _; simp at h
  | cons a as ih =>
    intro bs j h1 h2
    cases bs with
    | nil => simp at h2
    | cons b bs =>
      cases j with
      | zero => simp
      | succ j' =>
        simp only [List.zip_cons_cons, List.getD_cons_succ]
        exact ih bs j' (by simpa using h1) (by simpa using h2)

lemma mkDayCache_firstIdx_spec (dateStr : ℕ) (sel : List Bar)
    (orHigh orLow orAvgVol : ℚ) :
    isFirstIdx (mkDayCache dateStr sel orHigh orLow orAvgVol).nCandles
      (fun j => orHigh < (mkDayCache dateStr sel orHigh orLow orAvgVol).highs.getD j 0)
      (mkDayCache dateStr sel orHigh orLow orAvgVol).firstLongImmIdx ∧
    isFirstIdx (mkDayCache dateStr sel orHigh orLow orAvgVol).nCandles
      (fun j => (mkDayCache dateStr sel orHigh orLow orAvgVol).lows.getD j 0 < orLow)
      (mkDayCache dateStr sel orHigh orLow orAvgVol).firstShortImmIdx ∧
    isFirstIdx (mkDayCache dateStr sel orHigh orLow orAvgVol).nCandles
      (fun j => orHigh < (mkDayCache dateStr sel orHigh orLow orAvgVol).closes.getD j 0)
      (mkDayCache dateStr sel orHigh orLow orAvgVol).firstLongCloseIdx ∧
    isFirstIdx (mkDayCache dateStr sel orHigh orLow orAvgVol).nCandles
      (fun j => (mkDayCache dateStr sel orHigh orLow orAvgVol).closes.getD j 0 < orLow)
      (mkDayCache dateStr sel orHigh orLow orAvgVol).firstShortCloseIdx ∧
    (0 < orAvgVol →
      isFirstIdx (mkDayCache dateStr sel orHigh orLow orAvgVol).nCandles
        (fun j => orHigh < (mkDayCache dateStr sel orHigh orLow orAvgVol).closes.getD j 0 ∧
          3/2 * orAvgVol < (mkDayCache dateStr sel orHigh orLow orAvgVol).volumes.getD j 0)
        (mkDayCache dateStr sel orHigh orLow orAvgVol).firstLongVolIdx ∧
      isFirstIdx (mkDayCache dateStr sel orHigh orLow orAvgVol).nCandles
        (fun j => (mkDayCache dateStr sel orHigh orLow orAvgVol).closes.getD j 0 < orLow ∧
          3/2 * orAvgVol < (mkDayCache dateStr sel orHigh orLow orAvgVol).volumes.getD j 0)
        (mkDayCache dateStr sel orHigh orLow orAvgVol).firstShortVolIdx) ∧
    (orAvgVol ≤ 0 →
      (mkDayCache dateStr sel orHigh orLow orAvgVol).firstLongVolIdx = -1 ∧
      (mkDayCache dateStr sel orHigh orLow orAvgVol).firstShortVolIdx = -1) := by
  have en : (mkDayCache dateStr sel orHigh orLow orAvgVol).nCandles = sel.length := rfl
  have eh : (mkDayCache dateStr sel orHigh orLow orAvgVol).highs = sel.map Bar.high := rfl
  have el : (mkDayCache dateStr sel orHigh orLow orAvgVol).lows = sel.map Bar.low := rfl
  have ec : (mkDayCache dateStr sel orHigh orLow orAvgVol).closes = sel.map Bar.close := rfl
  have ev : (mkDayCache dateStr sel orHigh orLow orAvgVol).volumes = sel.map Bar.volume := rfl
  have e1 : (mkDayCache dateStr sel orHigh orLow orAvgVol).firstLongImmIdx =
      firstSignalIdx (fun h => decide (orHigh < h)) (sel.map Bar.high) := rfl
  have e2 : (mkDayCache dateStr sel orHigh orLow orAvgVol).firstShortImmIdx =
      firstSignalIdx (fun l => decide (l < orLow)) (sel.map Bar.low) := rfl
  have e3 : (mkDayCache dateStr sel orHigh orLow orAvgVol).firstLongCloseIdx =
      firstSignalIdx (fun c => decide (orHigh < c)) (sel.map Bar.close) := rfl
  have e4 : (mkDayCache dateStr sel orHigh orLow orAvgVol).firstShortCloseIdx =
      firstSignalIdx (fun c => decide (c < orLow)) (sel.map Bar.close) := rfl
  have e5 : (mkDayCache dateStr sel orHigh orLow orAvgVol).firstLongVolIdx =
      (if 0 < orAvgVol then
        firstSignalIdx (fun cv => decide (orHigh < cv.1) && decide (3/2 * orAvgVol < cv.2))
          ((sel.map Bar.close).zip (sel.map Bar.volume))
      else -1) := rfl
  have e6 : (mkDayCache dateStr sel orHigh orLow orAvgVol).firstShortVolIdx =
      (if 0 < orAvgVol then
        firstSignalIdx (fun cv => decide (cv.1 < orLow) && decide (3/2 * orAvgVol < cv.2))
          ((sel.map Bar.close).zip (sel.map Bar.volume))
      else -1) := rfl
  rw [en, eh, el, ec, ev, e1, e2, e3, e4, e5, e6]
  have hzlen : ((sel.map Bar.close).zip (sel.map Bar.volume)).length = sel.length := by
    simp
  refine ⟨?_, ?_, ?_, ?_, ?_, ?_⟩
  · have h := firstSignalIdx_isFirstIdx (fun h => decide (orHigh < h)) (sel.map Bar.high) 0
    rw [List.length_map] at h
    exact isFirstIdx_congr h (fun j _ => by simp)
  · have h := firstSignalIdx_isFirstIdx (fun l => decide (l < orLow)) (sel.map Bar.low) 0
    rw [List.length_map] at h
    exact isFirstIdx_congr h (fun j _ => by simp)
  · have h := firstSignalIdx_isFirstIdx (fun c => decide (orHigh < c)) (sel.map Bar.close) 0
    rw [List.length_map] at h
    exact isFirstIdx_congr h (fun j _ => by simp)
  · have h := firstSignalIdx_isFirstIdx (fun c => decide (c < orLow)) (sel.map Bar.close) 0
    rw [List.length_map] at h
    exact isFirstIdx_congr h (fun j _ => by simp)
  · intro hvol
    rw [if_pos hvol, if_pos hvol]
    constructor
    · have h := firstSignalIdx_isFirstIdx
        (fun cv => decide (orHigh < cv.1) && decide (3/2 * orAvgVol < cv.2))
        ((sel.map Bar.close).zip (sel.map Bar.volume)) (0, 0)
      rw [hzlen] at h
      refine isFirstIdx_congr h (fun j hj => ?_)
      rw [zip_getD_eq 0 0 (sel.map Bar.close) (sel.map Bar.volume) j (by simpa using hj)
        (by simpa using hj)]
      simp
    · have h := firstSignalIdx_isFirstIdx
        (fun cv => decide (cv.1 < orLow) && decide (3/2 * orAvgVol < cv.2))
        ((sel.map Bar.close).zip (sel.map Bar.volume)) (0, 0)
      rw [hzlen] at h
      refine isFirstIdx_congr h (fun j hj => ?_)
      rw [zip_getD_eq 0 0 (sel.map Bar.close) (sel.map Bar.volume) j (by simpa using hj)
        (by simpa using hj)]
      simp
  · intro hvol
    have hneg : ¬ 0 < orAvgVol := not_lt.mpr hvol
    rw [if_neg hneg, if_neg hneg]
    exact ⟨rfl, rfl⟩

lemma buildDayCaches_mem_mk (sd : StockData) (orData : List (ℕ × ORInfo))
    (orEndTime exitTime : ℕ) (dc : DayCache)
    (hdc : dc ∈ buildDayCaches sd orData orEndTime exitTime) :
    ∃ d bars sel orHigh orLow orAvgVol orPct,
      dictGet orData d = some (orHigh, orLow, orAvgVol, orPct) ∧
      dictGet sd.dayGroups d = some bars ∧
      sel = buildDayCacheBars bars orEndTime exitTime ∧
      dc = mkDayCache d sel orHigh orLow orAvgVol := by
  rw [buildDayCaches, List.mem_filterMap] at hdc
  obtain ⟨d, _, hf⟩ := hdc
  cases h1 : dictGet orData d with
  | none => simp only [h1] at hf; cases hf
  | some quad =>
    obtain ⟨oh, ol, oav, op⟩ := quad
    simp only [h1] at hf
    cases h2 : dictGet sd.dayGroups d with
    | none => simp only [h2] at hf; cases hf
    | some bars =>
      simp only [h2] at hf
      by_cases h3 : bars.isEmpty
      · simp [h3] at hf
      · by_cases h4 : (buildDayCacheBars bars orEndTime exitTime).isEmpty
        · simp [h3, h4] at hf
        · simp [h3, h4] at hf
          exact ⟨d, bars, buildDayCacheBars bars orEndTime exitTime, oh, ol, oav, op,
            h1, h2, rfl, hf.symm⟩

/-- C1: every DayCache produced by the builder has each of its six
precomputed entry indices equal to `-1` or a valid index into the cache
arrays; a nonnegative index points at the first bar satisfying the
corresponding entry predicate (no earlier cached bar satisfies it), and
`-1` means no cached bar satisfies it.  The volume-confirm indices carry
this meaning when the day's `or_avg_vol` is positive (the loader computes
it as a mean of positive volumes) and are pinned to `-1` when
`or_avg_vol ≤ 0`. -/
theorem dayCache_entry_indices_first
    (sd : StockData) (orData : List (ℕ × ORInfo)) (orEndTime exitTime : ℕ)
    (dc : DayCache) (orHigh orLow orAvgVol orPct : ℚ)
    (hdc : dc ∈ buildDayCaches sd orData orEndTime exitTime)
    (hor : dictGet orData dc.dateStr = some (orHigh, orLow, orAvgVol, orPct)) :
    isFirstIdx dc.nCandles (fun j => orHigh < dc.highs.getD j 0) dc.firstLongImmIdx ∧
    isFirstIdx dc.nCandles (fun j => dc.lows.getD j 0 < orLow) dc.firstShortImmIdx ∧
    isFirstIdx dc.nCandles (fun j => orHigh < dc.closes.getD j 0) dc.firstLongCloseIdx ∧
    isFirstIdx dc.nCandles (fun j => dc.closes.getD j 0 < orLow) dc.firstShortCloseIdx ∧
    (0 < orAvgVol →
      isFirstIdx dc.nCandles
        (fun j => orHigh < dc.closes.getD j 0 ∧ 3/2 * orAvgVol < dc.volumes.getD j 0)
        dc.firstLongVolIdx ∧
      isFirstIdx dc.nCandles
        (fun j => dc.closes.getD j 0 < orLow ∧ 3/2 * orAvgVol < dc.volumes.getD j 0)
        dc.firstShortVolIdx) ∧
    (orAvgVol ≤ 0 → dc.firstLongVolIdx = -1 ∧ dc.firstShortVolIdx = -1) := by
  obtain ⟨d, bars, sel, oh, ol, oav, op, hor', hbars, hseleq, hdceq⟩ :=
    buildDayCaches_mem_mk sd orData orEndTime exitTime dc hdc
  have hdate : dc.dateStr = d := by rw [hdceq]; rfl
  rw [hdate] at hor
  rw [hor'] at hor
  have hq := Option.some_injective _ hor
  simp only [Prod.mk.injEq] at hq
  obtain ⟨rfl, rfl, rfl, rfl⟩ := hq
  rw [hdceq]
  exact mkDayCache_firstIdx_spec d sel oh ol oav

lemma zip_get?_eq {α β : Type} :
    ∀ (as : List α) (bs : List β) (i : ℕ) (a : α) (b : β),
      (as.zip bs).get? i = some (a, b) → as.get? i = some a ∧ bs.get? i = some b := by
  intro as
  induction as with
  | nil => intro bs i a b h; simp at h
  | cons x xs ih =>
    intro bs i a b h
    cases bs with
    | nil => simp at h
    | cons y ys =>
      cases i with
      | zero =>
        simp only [List.zip_cons_cons, List.get?_cons_zero, Option.some.injEq,
          Prod.mk.injEq] at h
        simp [h.1, h.2]
      | succ i' =>
        simp only [List.zip_cons_cons, List.get?_cons_succ] at h ⊢
        exact ih ys i' a b h

lemma findExitTrailingAux_target_spec (dir : Direction) (tgt m lastClose : ℚ)
    (lastIdx : ℕ) :
    ∀ (pairs : List (ℚ × ℚ)) (i0 : ℕ) (peak sl : ℚ) (res : ℚ × ℕ × ExitReason × ℚ),
      findExitTrailingAux dir tgt m lastClose lastIdx pairs i0 peak sl = res →
      res.2.2.1 = .target →
      0 < tgt ∧ i0 ≤ res.2.1 ∧
      ∃ hl : ℚ × ℚ, pairs.get? (res.2.1 - i0) = some hl ∧
        (dir = .long → tgt ≤ hl.1 ∧ ¬ (hl.2 ≤ res.2.2.2)) ∧
        (dir = .short → hl.2 ≤ tgt ∧ ¬ (res.2.2.2 ≤ hl.1)) := by
  cases dir with
  | long =>
    intro pairs
    induction pairs with
    | nil =>
      intro i0 peak sl res hres htgt
      simp only [findExitTrailingAux] at hres
      subst hres
      simp at htgt
    | cons hd rest ih =>
      obtain ⟨cHigh, cLow⟩ := hd
      intro i0 peak sl res hres htgt
      simp only [findExitTrailingAux] at hres
      split_ifs at hres with h1 h2 h3
      · subst hres; simp at htgt
      · subst hres; simp at htgt
      · subst hres
        refine ⟨h3.1, le_refl _, (cHigh, cLow), ?_, ?_, ?_⟩
        · simp
        · intro _
          exact ⟨h3.2, h2⟩
        · intro h; exact Direction.noConfusion h
      · obtain ⟨hpos, hle, hl, hget, himp, _⟩ := ih _ _ _ _ hres htgt
        refine ⟨hpos, by omega, hl, ?_, himp, fun h => Direction.noConfusion h⟩
        have hk : res.2.1 - i0 = (res.2.1 - (i0 + 1)) + 1 := by omega
        rw [hk, List.get?_cons_succ]
        exact hget
  | short =>
    intro pairs
    induction pairs with
    | nil =>
      intro i0 peak sl res hres htgt
      simp only [findExitTrailingAux] at hres
      subst hres
      simp at htgt
    | cons hd rest ih =>
      obtain ⟨cHigh, cLow⟩ := hd
      intro i0 peak sl res hres htgt
      simp only [findExitTrailingAux] at hres
      split_ifs at hres with h1 h2 h3
      · subst hres; simp at htgt
      · subst hres; simp at htgt
      · subst hres
        refine ⟨h3.1, le_refl _, (cHigh, cLow), ?_, ?_, ?_⟩
        · simp
        · intro h; exact Direction.noConfusion h
        · intro _
          exact ⟨h3.2, h2⟩
      · obtain ⟨hpos, hle, hl, hget, _, himp⟩ := ih _ _ _ _ hres htgt
        refine ⟨hpos, by omega, hl, ?_, fun h => Direction.noConfusion h, himp⟩
        have hk : res.2.1 - i0 = (res.2.1 - (i0 + 1)) + 1 := by omega
        rw [hk, List.get?_cons_succ]
        exact hget

/-- C2: the stop wins an exact tie with the target on both exit paths.
On the vectorized path (FIXED / ATR stops), equal first-hit indices give
`exit_reason = stop_loss` at that bar.  On the sequential trailing path, a
`target` exit can only happen at a bar where the stop condition (with the
stop in effect at that bar, returned as `sl_final`) does not hold — so
whenever stop and target would both fire at the same bar, the exit is
`stop_loss`. -/
theorem exit_tie_resolves_to_stop (dc : DayCache) (dir : Direction)
    (entryIdx : ℕ) (stopLoss targetPrice trailingPct : ℚ) :
    (entryIdx + 1 < dc.nCandles →
      slIdxOf dc dir (entryIdx + 1) stopLoss = tgtIdxOf dc dir (entryIdx + 1) targetPrice →
      0 ≤ slIdxOf dc dir (entryIdx + 1) stopLoss →
      (findExitVectorized dc dir entryIdx stopLoss targetPrice).2.2.1 = .stopLoss ∧
      (findExitVectorized dc dir entryIdx stopLoss targetPrice).2.1 =
        (slIdxOf dc dir (entryIdx + 1) stopLoss).toNat) ∧
    ((findExitTrailing dc dir entryIdx stopLoss targetPrice trailingPct).2.2.1 = .target →
      0 < targetPrice ∧
      (dir = .long →
        targetPrice ≤ dc.highs.getD
          (findExitTrailing dc dir entryIdx stopLoss targetPrice trailingPct).2.1 0 ∧
        ¬ (dc.lows.getD
            (findExitTrailing dc dir entryIdx stopLoss targetPrice trailingPct).2.1 0 ≤
          (findExitTrailing dc dir entryIdx stopLoss targetPrice trailingPct).2.2.2)) ∧
      (dir = .short →
        dc.lows.getD
          (findExitTrailing dc dir entryIdx stopLoss targetPrice trailingPct).2.1 0 ≤
          targetPrice ∧
        ¬ ((findExitTrailing dc dir entryIdx stopLoss targetPrice trailingPct).2.2.2 ≤
          dc.highs.getD
            (findExitTrailing dc dir entryIdx stopLoss targetPrice trailingPct).2.1 0))) := by
  constructor
  · intro hlt heq hpos
    have hguard : ¬ dc.nCandles ≤ entryIdx + 1 := not_le.mpr hlt
    simp only [findExitVectorized]
    rw [if_neg hguard, if_pos ⟨hpos, heq ▸ hpos⟩, if_pos (le_of_eq heq)]
    exact ⟨rfl, rfl⟩
  · intro htgt
    by_cases hguard : dc.nCandles ≤ entryIdx + 1
    · exfalso
      simp only [findExitTrailing] at htgt
      rw [if_pos hguard] at htgt
      simp at htgt
    · cases dir with
      | long =>
        have hres :
            findExitTrailing dc .long entryIdx stopLoss targetPrice trailingPct =
              findExitTrailingAux .long targetPrice (trailingPct / 100)
                (dc.closes.getD (dc.nCandles - 1) 0) (dc.nCandles - 1)
                ((dc.highs.drop (entryIdx + 1)).zip (dc.lows.drop (entryIdx + 1)))
                (entryIdx + 1) (dc.highs.getD entryIdx 0) stopLoss := by
          simp only [findExitTrailing]
          rw [if_neg hguard]
        obtain ⟨hpos, hle, hl, hget, hlong, _⟩ :=
          findExitTrailingAux_target_spec .long targetPrice (trailingPct / 100)
            (dc.closes.getD (dc.nCandles - 1) 0) (dc.nCandles - 1)
            ((dc.highs.drop (entryIdx + 1)).zip (dc.lows.drop (entryIdx + 1)))
            (entryIdx + 1) _ stopLoss _ hres.symm htgt
        set ridx := (findExitTrailing dc .long entryIdx stopLoss targetPrice trailingPct).2.1
          with hridx
        obtain ⟨hgh, hgl⟩ := zip_get?_eq _ _ _ _ _ hget
        rw [List.get?_drop] at hgh hgl
        have hidx : entryIdx + 1 + (ridx - (entryIdx + 1)) = ridx := by omega
        rw [hidx] at hgh hgl
        have hhigh : dc.highs.getD ridx 0 = hl.1 := by
          show (dc.highs.get? ridx).getD 0 = hl.1
          rw [hgh]; rfl
        have hlow : dc.lows.getD ridx 0 = hl.2 := by
          show (dc.lows.get? ridx).getD 0 = hl.2
          rw [hgl]; rfl
        refine ⟨hpos, ?_, ?_⟩
        · intro _
          rw [hhigh, hlow]
          exact hlong rfl
        · intro h; exact Direction.noConfusion h
      | short =>
        have hres :
            findExitTrailing dc .short entryIdx stopLoss targetPrice trailingPct =
              findExitTrailingAux .short targetPrice (trailingPct / 100)
                (dc.closes.getD (dc.nCandles - 1) 0) (dc.nCandles - 1)
                ((dc.highs.drop (entryIdx + 1)).zip (dc.lows.drop (entryIdx + 1)))
                (entryIdx + 1) (dc.lows.getD entryIdx 0) stopLoss := by
          simp only [findExitTrailing]
          rw [if_neg hguard]
        obtain ⟨hpos, hle, hl, hget, _, hshort⟩ :=
          findExitTrailingAux_target_spec .short targetPrice (trailingPct / 100)
            (dc.closes.getD (dc.nCandles - 1) 0) (dc.nCandles - 1)
            ((dc.highs.drop (entryIdx + 1)).zip (dc.lows.drop (entryIdx + 1)))
            (entryIdx + 1) _ stopLoss _ hres.symm htgt
        set ridx := (findExitTrailing dc .short entryIdx stopLoss targetPrice trailingPct).2.1
          with hridx
        obtain ⟨hgh, hgl⟩ := zip_get?_eq _ _ _ _ _ hget
        rw [List.get?_drop] at hgh hgl
        have hidx : entryIdx + 1 + (ridx - (entryIdx + 1)) = ridx := by omega
        rw [hidx] at hgh hgl
        have hhigh : dc.highs.getD ridx 0 = hl.1 := by
          show (dc.highs.get? ridx).getD 0 = hl.1
          rw [hgh]; rfl
        have hlow : dc.lows.getD ridx 0 = hl.2 := by
          show (dc.lows.get? ridx).getD 0 = hl.2
          rw [hgl]; rfl
        refine ⟨hpos, ?_, ?_⟩
        · intro h; exact Direction.noConfusion h
        · intro _
          rw [hhigh, hlow]
          exact hshort rfl

/-- C3: with both sides admissible (trade_direction BOTH) and both
precomputed indices fired, the smaller index wins and an exact tie goes
LONG; the entry price is the OR boundary under IMMEDIATE confirmation and
the close at the chosen index otherwise. -/
theorem entry_smaller_index_wins_tie_long (dc : DayCache) (orHigh orLow : ℚ)
    (conf : EntryConfirmation)
    (hl : 0 ≤ longIdxFor dc conf) (hs : 0 ≤ shortIdxFor dc conf) :
    (longIdxFor dc conf ≤ shortIdxFor dc conf →
      findEntry dc orHigh orLow conf true true =
        some (.long,
          (if conf = .immediate then orHigh
            else dc.closes.getD (longIdxFor dc conf).toNat 0),
          (longIdxFor dc conf).toNat)) ∧
    (shortIdxFor dc conf < longIdxFor dc conf →
      findEntry dc orHigh orLow conf true true =
        some (.short,
          (if conf = .immediate then orLow
            else dc.closes.getD (shortIdxFor dc conf).toNat 0),
          (shortIdxFor dc conf).toNat)) := by
  constructor
  · intro hcmp
    simp only [findEntry, eq_self_iff_true, if_true]
    rw [if_pos ⟨hl, hs⟩, if_pos hcmp]
    by_cases hc : conf = EntryConfirmation.immediate
    · rw [if_pos hc, if_pos hc]
    · rw [if_neg hc, if_neg hc]
  · intro hcmp
    simp only [findEntry, eq_self_iff_true, if_true]
    rw [if_pos ⟨hl, hs⟩, if_neg (not_le.mpr hcmp)]
    by_cases hc : conf = EntryConfirmation.immediate
    · rw [if_pos hc, if_pos hc]
    · rw [if_neg hc, if_neg hc]

theorem dayCache_entry_indices_first_witness :
    ((c1dc ∈ buildDayCaches c1sd c1or 930 935) ∧
      dictGet c1or c1dc.dateStr = some (100, 98, 4, 1)) ∧
    isFirstIdx c1dc.nCandles (fun j => (100 : ℚ) < c1dc.highs.getD j 0)
      c1dc.firstLongImmIdx :=
  ⟨⟨by
      have h : buildDayCaches c1sd c1or 930 935 = [c1dc] := by
        norm_num [buildDayCaches, c1sd, c1or, c1dc, c1bars, dictGet,
          buildDayCacheBars, List.filterMap]
      rw [h]
      exact List.mem_singleton.mpr rfl,
    by norm_num [c1or, c1dc, dictGet, mkDayCache]⟩,
    (dayCache_entry_indices_first c1sd c1or 930 935 c1dc 100 98 4 1
      (by
        have h : buildDayCaches c1sd c1or 930 935 = [c1dc] := by
          norm_num [buildDayCaches, c1sd, c1or, c1dc, c1bars, dictGet,
            buildDayCacheBars, List.filterMap]
        rw [h]
        exact List.mem_singleton.mpr rfl)
      (by norm_num [c1or, c1dc, dictGet, mkDayCache])).1⟩

theorem exit_tie_resolves_to_stop_witness :
    ((1 < c2dc.nCandles ∧
        slIdxOf c2dc .long 1 98 = tgtIdxOf c2dc .long 1 103 ∧
        0 ≤ slIdxOf c2dc .long 1 98) ∧
      (findExitTrailing c2dc .long 0 90 103 10).2.2.1 = .target) ∧
    ((findExitVectorized c2dc .long 0 98 103).2.2.1 = .stopLoss ∧
      (findExitVectorized c2dc .long 0 98 103).2.1 = (slIdxOf c2dc .long 1 98).toNat) ∧
    (0 < (103 : ℚ) ∧
      (Direction.long = .long →
        (103 : ℚ) ≤ c2dc.highs.getD (findExitTrailing c2dc .long 0 90 103 10).2.1 0 ∧
        ¬ (c2dc.lows.getD (findExitTrailing c2dc .long 0 90 103 10).2.1 0 ≤
          (findExitTrailing c2dc .long 0 90 103 10).2.2.2)) ∧
      (Direction.long = .short →
        c2dc.lows.getD (findExitTrailing c2dc .long 0 90 103 10).2.1 0 ≤ 103 ∧
        ¬ ((findExitTrailing c2dc .long 0 90 103 10).2.2.2 ≤
          c2dc.highs.getD (findExitTrailing c2dc .long 0 90 103 10).2.1 0))) :=
  ⟨⟨⟨by norm_num [c2dc, mkDayCache],
      by norm_num [slIdxOf, tgtIdxOf, c2dc, mkDayCache, firstHit],
      by norm_num [slIdxOf, c2dc, mkDayCache, firstHit]⟩,
    by norm_num [findExitTrailing, findExitTrailingAux, trailUpdateLong, c2dc,
      mkDayCache]⟩,
    (exit_tie_resolves_to_stop c2dc .long 0 98 103 0).1
      (by norm_num [c2dc, mkDayCache])
      (by norm_num [slIdxOf, tgtIdxOf, c2dc, mkDayCache, firstHit])
      (by norm_num [slIdxOf, c2dc, mkDayCache, firstHit]),
    (exit_tie_resolves_to_stop c2dc .long 0 90 103 10).2
      (by norm_num [findExitTrailing, findExitTrailingAux, trailUpdateLong, c2dc,
        mkDayCache])⟩

theorem entry_smaller_index_wins_tie_long_witness :
    (0 ≤ longIdxFor c3dc .immediate ∧ 0 ≤ shortIdxFor c3dc .immediate ∧
      longIdxFor c3dc .immediate ≤ shortIdxFor c3dc .immediate) ∧
    findEntry c3dc 100 98 .immediate true true =
      some (.long,
        (if EntryConfirmation.immediate = EntryConfirmation.immediate then (100 : ℚ)
          else c3dc.closes.getD (longIdxFor c3dc .immediate).toNat 0),
        (longIdxFor c3dc .immediate).toNat) :=
  ⟨⟨by norm_num [longIdxFor, c3dc, mkDayCache, firstSignalIdx, firstHit],
    by norm_num [shortIdxFor, c3dc, mkDayCache, firstSignalIdx, firstHit],
    by norm_num [longIdxFor, shortIdxFor, c3dc, mkDayCache, firstSignalIdx, firstHit]⟩,
    (entry_smaller_index_wins_tie_long c3dc 100 98 .immediate
      (by norm_num [longIdxFor, c3dc, mkDayCache, firstSignalIdx, firstHit])
      (by norm_num [shortIdxFor, c3dc, mkDayCache, firstSignalIdx, firstHit])).1
      (by norm_num [longIdxFor, shortIdxFor, c3dc, mkDayCache, firstSignalIdx, firstHit])⟩

/-- C4 counterexample: the day-slice mask is `time <= exit_time`, so a bar
at exactly the exit time is INCLUDED in the cache slice, contradicting the
claimed half-open interval `[or_end_time, exit_time)`. -/
theorem exit_time_bar_included_cex :
    c4bar ∈ buildDayCacheBars [c4bar] 600 900 := by
  norm_num [buildDayCacheBars, c4bar]

/-- C4 (amended): the cache covers the closed interval
`[or_end_time, exit_time]`: the day slice keeps a bar exactly when its
time-of-day is at or after the OR end and at or before (including
exactly at) the exit time, and every built DayCache's parallel arrays
are the column projections of that closed-interval slice of the day's
bars. -/
theorem dayCacheBars_closed_interval :
    (∀ (bars : List Bar) (orEndTime exitTime : ℕ) (b : Bar),
      b ∈ buildDayCacheBars bars orEndTime exitTime ↔
        b ∈ bars ∧ orEndTime ≤ b.timeOfDay ∧ b.timeOfDay ≤ exitTime) ∧
    (∀ (sd : StockData) (orData : List (ℕ × ORInfo)) (orEndTime exitTime : ℕ)
        (dc : DayCache), dc ∈ buildDayCaches sd orData orEndTime exitTime →
      ∃ bars, dictGet sd.dayGroups dc.dateStr = some bars ∧
        dc.highs = (buildDayCacheBars bars orEndTime exitTime).map Bar.high ∧
        dc.lows = (buildDayCacheBars bars orEndTime exitTime).map Bar.low ∧
        dc.closes = (buildDayCacheBars bars orEndTime exitTime).map Bar.close ∧
        dc.volumes = (buildDayCacheBars bars orEndTime exitTime).map Bar.volume ∧
        dc.datetimes = (buildDayCacheBars bars orEndTime exitTime).map Bar.dt) := by
  constructor
  · intro bars orEndTime exitTime b
    simp [buildDayCacheBars, List.mem_filter]
  · intro sd orData orEndTime exitTime dc hdc
    obtain ⟨d, bars, sel, oh, ol, oav, op, _, hbars, hseleq, hdceq⟩ :=
      buildDayCaches_mem_mk sd orData orEndTime exitTime dc hdc
    have hdate : dc.dateStr = d := by rw [hdceq]; rfl
    refine ⟨bars, by rw [hdate]; exact hbars, ?_, ?_, ?_, ?_, ?_⟩ <;>
      rw [hdceq, ← hseleq] <;> rfl

/-- C5 counterexample: with a single trading day (fewer than
`atr_period + 1 = 15`), `_compute_daily_atr` returns the empty dict, so
day 0 gets NO ATR value — not the running simple average `(10-8)/1`. -/
theorem dailyATR_short_history_empty_cex :
    computeDailyATR c5groups [0] 14 0 = none := by
  rfl

lemma foldl_insertK_range_apply (g : ℕ → ℚ) (m0 : ℕ → Option ℚ) :
    ∀ (m i : ℕ), ((List.range m).foldl (fun acc j => insertK acc j (g j)) m0) i =
      if i < m then some (g i) else m0 i := by
  intro m
  induction m with
  | zero => intro i; simp
  | succ m ih =>
    intro i
    rw [List.range_succ, List.foldl_append]
    simp only [List.foldl_cons, List.foldl_nil]
    by_cases hi : i = m
    · subst hi
      simp [insertK]
    · show (if i = m then some (g m) else _) = _
      rw [if_neg hi, ih i]
      by_cases h2 : i < m
      · rw [if_pos h2, if_pos (by omega)]
      · rw [if_neg h2, if_neg (by omega)]

/-- C5 (amended): when the instrument has at least `atr_period + 1`
trading days, each of the first `atr_period` days gets the running simple
average of the true ranges seen so far; with fewer days the ATR dict is
empty (the claim's "even when fewer than atr_period + 1 days" part fails,
see the counterexample). -/
theorem dailyATR_early_days_running_average
    (dayGroups : List (ℕ × List Bar)) (tradingDays : List ℕ) (period i : ℕ)
    (hlen : period + 1 ≤ tradingDays.length) (hi : i < period) :
    computeDailyATR dayGroups tradingDays period i =
      some (((trueRanges (tradingDays.map
          (fun d => dailyAgg ((dictGet dayGroups d).getD [])))).take (i + 1)).sum /
        ((i : ℚ) + 1)) := by
  rw [computeDailyATR]
  rw [if_neg (by omega : ¬ tradingDays.length < period + 1)]
  simp only []
  rw [foldl_insertK_range_apply]
  rw [if_pos (by omega : i < min period tradingDays.length)]

theorem dailyATR_early_days_running_average_witness :
    (14 + 1 ≤ (List.range 15).length ∧ 0 < 14) ∧
    computeDailyATR [] (List.range 15) 14 0 =
      some (((trueRanges ((List.range 15).map
          (fun d => dailyAgg ((dictGet ([] : List (ℕ × List Bar)) d).getD [])))).take
        (0 + 1)).sum / ((0 : ℚ) + 1)) :=
  ⟨⟨by norm_num, by norm_num⟩,
    dailyATR_early_days_running_average [] (List.range 15) 14 0 (by norm_num) (by norm_num)⟩

/-- C6 counterexample: two trades 100 days apart, total net P&L 200 and
max drawdown 50.  The claim (`years = max(1, days/365.25)`) predicts
`200 / 1 / 50 = 4`, but the code divides by `days/365.25 = 400/1461 < 1`
and returns `14.61`. -/
theorem calmar_subyear_not_clamped_cex :
    computeCalmar [100, 100] [c6trade 0, c6trade 100] 50 = 1461 / 100 ∧
    (1461 / 100 : ℚ) ≠ ((100 + 100) / max 1 ((100 : ℚ) / (1461/4))) / 50 := by
  constructor
  · norm_num [computeCalmar, c6trade]
  · have hmax : max (1 : ℚ) ((100 : ℚ) / (1461/4)) = 1 := by
      rw [max_eq_left]
      rw [div_le_one (by norm_num)]
      norm_num
    rw [hmax]
    norm_num

/-- C6 (amended): for a non-empty trade list with positive max drawdown,
`calmar = (sum of net P&Ls) / years / max_drawdown` where
`years = days/365.25` when the first-to-last-trade span `days` is
positive, and `years = 1` only when the span is zero (or negative) — the
claimed `max(1, ...)` clamp is not applied, so sub-year spans divide by a
value smaller than 1. -/
theorem calmar_years_formula (pnls : List ℚ) (trades : List Trade) (maxDd : ℚ)
    (hne : trades ≠ []) (hdd : 0 < maxDd) :
    computeCalmar pnls trades maxDd =
      pnls.sum /
        (if 0 < ((((trades.getLast?.map Trade.date).getD 0 : ℕ) : ℤ) -
            (((trades.head?.map Trade.date).getD 0 : ℕ) : ℤ)) then
          (((((trades.getLast?.map Trade.date).getD 0 : ℕ) : ℤ) -
            (((trades.head?.map Trade.date).getD 0 : ℕ) : ℤ) : ℤ) : ℚ) / (1461/4)
        else 1) / maxDd := by
  rw [computeCalmar]
  rw [if_neg (not_or.mpr ⟨not_le.mpr hdd, by simpa using hne⟩)]
  simp only []
  by_cases hdy : 0 < ((((trades.getLast?.map Trade.date).getD 0 : ℕ) : ℤ) -
      (((trades.head?.map Trade.date).getD 0 : ℕ) : ℤ))
  · rw [if_pos hdy]
    rw [if_pos (div_pos (by exact_mod_cast hdy) (by norm_num))]
  · rw [if_neg hdy]
    rw [if_pos one_pos]

theorem calmar_years_formula_witness :
    (([c6trade 0, c6trade 100] : List Trade) ≠ [] ∧ (0 : ℚ) < 50) ∧
    computeCalmar [100, 100] [c6trade 0, c6trade 100] 50 =
      ([100, 100] : List ℚ).sum /
        (if 0 < (((([c6trade 0, c6trade 100].getLast?.map Trade.date).getD 0 : ℕ) : ℤ) -
            (((([c6trade 0, c6trade 100].head?.map Trade.date).getD 0 : ℕ) : ℤ))) then
          ((((([c6trade 0, c6trade 100].getLast?.map Trade.date).getD 0 : ℕ) : ℤ) -
            (((([c6trade 0, c6trade 100].head?.map Trade.date).getD 0 : ℕ) : ℤ)) : ℤ) : ℚ) /
            (1461/4)
        else 1) / 50 :=
  ⟨⟨by simp, by norm_num⟩,
    calmar_years_formula [100, 100] [c6trade 0, c6trade 100] 50 (by simp) (by norm_num)⟩

/-- C8: `compute` on an empty trade list returns the degenerate result:
every metric zero and `composite_score` the large negative sentinel
(`-999999`); being a total function, it never raises. -/
theorem compute_empty_trades_degenerate (sqrtA : ℚ → ℚ) (capital : ℚ) :
    MetricsCalculator.compute sqrtA capital [] =
      { totalTrades := 0, winningTrades := 0, losingTrades := 0,
        winRate := 0, totalPnl := 0, netPnl := 0, avgPnlPerTrade := 0,
        avgWinner := 0, avgLoser := 0, profitFactor := 0,
        maxDrawdown := 0, maxDrawdownPct := 0, maxConsecutiveLosses := 0,
        sharpeRatio := 0, sortinoRatio := 0, expectancy := 0,
        avgRMultiple := 0, calmarRatio := 0, bestTrade := 0,
        worstTrade := 0, avgHoldingMinutes := 0,
        compositeScore := -999999 } := rfl

/-- C9: when `opening_ranges` has no entry for `params.or_minutes`, `run`
returns the empty trade list (and, being pure, has no other effect). -/
theorem run_missing_or_minutes_empty (sim : ORBSimulator) (sd : StockData)
    (params : StrategyParams)
    (h : dictGet sd.openingRanges params.orMinutes = none) :
    sim.run sd params = [] := by
  simp only [ORBSimulator.run, h]

theorem run_missing_or_minutes_empty_witness :
    dictGet c9sd.openingRanges c9params.orMinutes = none ∧
    ORBSimulator.run {} c9sd c9params = [] :=
  ⟨rfl, run_missing_or_minutes_empty {} c9sd c9params rfl⟩

lemma dictGet_insertAppend (k' : ℕ) (p : StrategyParams) :
    ∀ (gs : List (ℕ × List StrategyParams)) (k : ℕ),
      dictGet (insertAppend gs k' p) k =
        if k = k' then some ((dictGet gs k').getD [] ++ [p]) else dictGet gs k := by
  intro gs
  induction gs with
  | nil =>
    intro k
    rcases eq_or_ne k k' with h | h
    · subst h
      simp [insertAppend, dictGet]
    · simp [insertAppend, dictGet, h, Ne.symm h]
  | cons hd rest ih =>
    obtain ⟨k0, l0⟩ := hd
    intro k
    rcases eq_or_ne k0 k' with h0 | h0
    · subst h0
      rcases eq_or_ne k0 k with h | h
      · subst h
        simp [insertAppend, dictGet]
      · simp [insertAppend, dictGet, h, Ne.symm h]
    · rcases eq_or_ne k0 k with h | h
      · subst h
        simp [insertAppend, dictGet, h0, Ne.symm h0]
      · simp [insertAppend, dictGet, h0, h, ih k]

lemma dictGet_groupFold (ps : List StrategyParams) :
    ∀ (gs : List (ℕ × List StrategyParams)) (k : ℕ),
      dictGet (ps.foldl (fun g p => insertAppend g p.orMinutes p) gs) k =
        if (dictGet gs k).isSome ∨
            ¬ (ps.filter (fun p => decide (p.orMinutes = k)) = []) then
          some ((dictGet gs k).getD [] ++ ps.filter (fun p => decide (p.orMinutes = k)))
        else none := by
  induction ps with
  | nil =>
    intro gs k
    simp only [List.foldl_nil, List.filter_nil]
    cases h : dictGet gs k with
    | none => simp
    | some l0 => simp
  | cons p ps ih =>
    intro gs k
    rw [List.foldl_cons, ih, dictGet_insertAppend]
    rcases eq_or_ne k p.orMinutes with hk | hk
    · simp only [hk, if_pos rfl, List.filter_cons, Option.isSome_some, true_or,
        if_true, Option.getD_some]
      simp [List.append_assoc]
    · rw [if_neg hk]
      have hne : ¬ (p.orMinutes = k) := fun h => hk h.symm
      have hfil : (p :: ps).filter (fun q => decide (q.orMinutes = k)) =
          ps.filter (fun q => decide (q.orMinutes = k)) := by
        rw [List.filter_cons, if_neg (by simpa using hne)]
      rw [hfil]

lemma groupVals_insertAppend (k : ℕ) (p : StrategyParams) :
    ∀ gs : List (ℕ × List StrategyParams),
      (groupVals (insertAppend gs k p)).Perm (groupVals gs ++ [p]) := by
  intro gs
  induction gs with
  | nil =>
    simp [insertAppend, groupVals]
  | cons hd rest ih =>
    obtain ⟨k0, l0⟩ := hd
    rcases eq_or_ne k0 k with h0 | h0
    · subst h0
      rw [show insertAppend ((k0, l0) :: rest) k0 p = (k0, l0 ++ [p]) :: rest from by
        simp [insertAppend]]
      simp only [groupVals, List.map_cons, List.join_cons]
      rw [List.append_assoc, List.append_assoc]
      exact List.Perm.append_left l0 List.perm_append_comm
    · rw [show insertAppend ((k0, l0) :: rest) k p = (k0, l0) :: insertAppend rest k p from by
        simp [insertAppend, h0]]
      simp only [groupVals, List.map_cons, List.join_cons]
      rw [List.append_assoc]
      exact List.Perm.append_left l0 (by simpa [groupVals] using ih)

lemma groupVals_groupFold (ps : List StrategyParams) :
    ∀ gs : List (ℕ × List StrategyParams),
      (groupVals (ps.foldl (fun g p => insertAppend g p.orMinutes p) gs)).Perm
        (groupVals gs ++ ps) := by
  induction ps with
  | nil => intro gs; simp
  | cons p ps ih =>
    intro gs
    rw [List.foldl_cons]
    refine (ih (insertAppend gs p.orMinutes p)).trans ?_
    have h1 := (groupVals_insertAppend p.orMinutes p gs).append_right ps
    refine h1.trans ?_
    rw [List.append_assoc]
    simp

/-- C10: `group_by_or_minutes` partitions the input list: the group at
key `k` is exactly the sublist of params whose `or_minutes` is `k`, in
their original relative order (no group exists for an unused key), and
the concatenation of all groups is a permutation of the input (nothing is
dropped or duplicated). -/
theorem group_by_or_minutes_partition (paramsList : List StrategyParams) :
    (∀ k : ℕ, dictGet (groupByOrMinutes paramsList) k =
      if paramsList.filter (fun p => decide (p.orMinutes = k)) = [] then none
      else some (paramsList.filter (fun p => decide (p.orMinutes = k)))) ∧
    ((groupByOrMinutes paramsList).map Prod.snd).join.Perm paramsList := by
  constructor
  · intro k
    rw [groupByOrMinutes, dictGet_groupFold]
    simp only [dictGet, Option.isSome_none, Bool.false_eq_true, false_or]
    by_cases h : paramsList.filter (fun p => decide (p.orMinutes = k)) = []
    · rw [if_neg (by simp [h]), if_pos h]
    · rw [if_pos h, if_neg h]
      simp
  · have h := groupVals_groupFold paramsList []
    simpa [groupVals, groupByOrMinutes] using h

lemma firstHit_zip_fst (q : ℚ → Bool) :
    ∀ (hs ls : List ℚ), hs.length = ls.length →
      firstHit (fun p : ℚ × ℚ => q p.1) (hs.zip ls) = firstHit q hs := by
  intro hs
  induction hs with
  | nil => intro ls h; simp [firstHit]
  | cons x xs ih =>
    intro ls h
    cases ls with
    | nil => simp at h
    | cons y ys =>
      simp only [List.zip_cons_cons, firstHit]
      have hz : List.zipWith Prod.mk xs ys = xs.zip ys := rfl
      rw [hz, ih ys (by simpa using h)]

lemma firstHit_zip_snd (q : ℚ → Bool) :
    ∀ (hs ls : List ℚ), hs.length = ls.length →
      firstHit (fun p : ℚ × ℚ => q p.2) (hs.zip ls) = firstHit q ls := by
  intro hs
  induction hs with
  | nil =>
    intro ls h
    have : ls = [] := by simpa using (List.length_eq_zero.mp h.symm)
    subst this
    simp [firstHit]
  | cons x xs ih =>
    intro ls h
    cases ls with
    | nil => simp at h
    | cons y ys =>
      simp only [List.zip_cons_cons, firstHit]
      have hz : List.zipWith Prod.mk xs ys = xs.zip ys := rfl
      rw [hz, ih ys (by simpa using h)]

lemma trailingAux_no_ratchet_long (tgt m lastClose : ℚ) (lastIdx : ℕ) :
    ∀ (pairs : List (ℚ × ℚ)) (i0 : ℕ) (peak sl : ℚ), (∀ p ∈ pairs, p.1 ≤ peak) →
      findExitTrailingAux .long tgt m lastClose lastIdx pairs i0 peak sl =
        vecScan (fun p => decide (p.2 ≤ sl)) (fun p => decide (tgt ≤ p.1))
          (decide (0 < tgt)) tgt sl lastClose lastIdx pairs i0 := by
  intro pairs
  induction pairs with
  | nil =>
    intro i0 peak sl _
    simp [findExitTrailingAux, vecScan, firstHit]
  | cons hd rest ih =>
    obtain ⟨h, l⟩ := hd
    intro i0 peak sl hpk
    have hh : h ≤ peak := by simpa using hpk (h, l) (List.mem_cons_self _ _)
    have hupd : trailUpdateLong m peak sl h = (peak, sl) := by
      rw [trailUpdateLong, if_neg (not_lt.mpr hh)]
    simp only [findExitTrailingAux, hupd]
    by_cases hsl : l ≤ sl
    · by_cases ht : 0 < tgt ∧ tgt ≤ h
      · rw [if_pos ⟨hsl, ht⟩]
        simp [vecScan, firstHit, hsl, ht.1, ht.2]
      · rw [if_neg (fun hc => ht hc.2), if_pos hsl]
        by_cases ht0 : 0 < tgt
        · have hth : ¬ tgt ≤ h := fun hc => ht ⟨ht0, hc⟩
          rcases hft : firstHit (fun p : ℚ × ℚ => decide (tgt ≤ p.1)) rest with _ | b <;>
            simp [vecScan, firstHit, hsl, ht0, hth, hft]
        · simp [vecScan, firstHit, hsl, ht0]
    · by_cases ht : 0 < tgt ∧ tgt ≤ h
      · rw [if_neg (fun hc => hsl hc.1), if_neg hsl, if_pos ht]
        rcases hfs : firstHit (fun p : ℚ × ℚ => decide (p.2 ≤ sl)) rest with _ | a <;>
          simp [vecScan, firstHit, hsl, ht.1, ht.2, hfs]
      · rw [if_neg (fun hc => hsl hc.1), if_neg hsl, if_neg ht]
        rw [ih (i0 + 1) peak sl (fun p hp => hpk p (List.mem_cons_of_mem _ hp))]
        by_cases ht0 : 0 < tgt
        · have hth : ¬ tgt ≤ h := fun hc => ht ⟨ht0, hc⟩
          rcases hfs : firstHit (fun p : ℚ × ℚ => decide (p.2 ≤ sl)) rest with _ | a
          · rcases hft : firstHit (fun p : ℚ × ℚ => decide (tgt ≤ p.1)) rest with _ | b <;>
              simp [vecScan, firstHit, hsl, hth, ht0, hfs, hft, Prod.mk.injEq] <;> omega
          · rcases hft : firstHit (fun p : ℚ × ℚ => decide (tgt ≤ p.1)) rest with _ | b
            · simp [vecScan, firstHit, hsl, hth, ht0, hfs, hft, Prod.mk.injEq] <;> omega
            · by_cases hab : a ≤ b <;>
                simp [vecScan, firstHit, hsl, hth, ht0, hfs, hft, hab, Prod.mk.injEq,
                  Nat.add_le_add_iff_right] <;> omega
        · rcases hfs : firstHit (fun p : ℚ × ℚ => decide (p.2 ≤ sl)) rest with _ | a <;>
            simp [vecScan, firstHit, hsl, ht0, hfs, Prod.mk.injEq] <;> omega

lemma trailingAux_no_ratchet_short (tgt m lastClose : ℚ) (lastIdx : ℕ) :
    ∀ (pairs : List (ℚ × ℚ)) (i0 : ℕ) (peak sl : ℚ), (∀ p ∈ pairs, peak ≤ p.2) →
      findExitTrailingAux .short tgt m lastClose lastIdx pairs i0 peak sl =
        vecScan (fun p => decide (sl ≤ p.1)) (fun p => decide (p.2 ≤ tgt))
          (decide (0 < tgt)) tgt sl lastClose lastIdx pairs i0 := by
  intro pairs
  induction pairs with
  | nil =>
    intro i0 peak sl _
    simp [findExitTrailingAux, vecScan, firstHit]
  | cons hd rest ih =>
    obtain ⟨h, l⟩ := hd
    intro i0 peak sl hpk
    have hh : peak ≤ l := by simpa using hpk (h, l) (List.mem_cons_self _ _)
    have hupd : trailUpdateShort m peak sl l = (peak, sl) := by
      rw [trailUpdateShort, if_neg (not_lt.mpr hh)]
    simp only [findExitTrailingAux, hupd]
    by_cases hsl : sl ≤ h
    · by_cases ht : 0 < tgt ∧ l ≤ tgt
      · rw [if_pos ⟨hsl, ht⟩]
        simp [vecScan, firstHit, hsl, ht.1, ht.2]
      · rw [if_neg (fun hc => ht hc.2), if_pos hsl]
        by_cases ht0 : 0 < tgt
        · have hth : ¬ l ≤ tgt := fun hc => ht ⟨ht0, hc⟩
          rcases hft : firstHit (fun p : ℚ × ℚ => decide (p.2 ≤ tgt)) rest with _ | b <;>
            simp [vecScan, firstHit, hsl, ht0, hth, hft]
        · simp [vecScan, firstHit, hsl, ht0]
    · by_cases ht : 0 < tgt ∧ l ≤ tgt
      · rw [if_neg (fun hc => hsl hc.1), if_neg hsl, if_pos ht]
        rcases hfs : firstHit (fun p : ℚ × ℚ => decide (sl ≤ p.1)) rest with _ | a <;>
          simp [vecScan, firstHit, hsl, ht.1, ht.2, hfs]
      · rw [if_neg (fun hc => hsl hc.1), if_neg hsl, if_neg ht]
        rw [ih (i0 + 1) peak sl (fun p hp => hpk p (List.mem_cons_of_mem _ hp))]
        by_cases ht0 : 0 < tgt
        · have hth : ¬ l ≤ tgt := fun hc => ht ⟨ht0, hc⟩
          rcases hfs : firstHit (fun p : ℚ × ℚ => decide (sl ≤ p.1)) rest with _ | a
          · rcases hft : firstHit (fun p : ℚ × ℚ => decide (p.2 ≤ tgt)) rest with _ | b <;>
              simp [vecScan, firstHit, hsl, hth, ht0, hfs, hft, Prod.mk.injEq] <;> omega
          · rcases hft : firstHit (fun p : ℚ × ℚ => decide (p.2 ≤ tgt)) rest with _ | b
            · simp [vecScan, firstHit, hsl, hth, ht0, hfs, hft, Prod.mk.injEq] <;> omega
            · by_cases hab : a ≤ b <;>
                simp [vecScan, firstHit, hsl, hth, ht0, hfs, hft, hab, Prod.mk.injEq,
                  Nat.add_le_add_iff_right] <;> omega
        · rcases hfs : firstHit (fun p : ℚ × ℚ => decide (sl ≤ p.1)) rest with _ | a <;>
            simp [vecScan, firstHit, hsl, ht0, hfs, Prod.mk.injEq] <;> omega

lemma vecScan_eq_findExitVectorized_long (dc : DayCache) (entryIdx : ℕ) (sl tgt : ℚ)
    (hguard : ¬ dc.nCandles ≤ entryIdx + 1)
    (hlen : dc.highs.length = dc.lows.length) :
    vecScan (fun p => decide (p.2 ≤ sl)) (fun p => decide (tgt ≤ p.1)) (decide (0 < tgt))
      tgt sl (dc.closes.getD (dc.nCandles - 1) 0) (dc.nCandles - 1)
      ((dc.highs.drop (entryIdx + 1)).zip (dc.lows.drop (entryIdx + 1))) (entryIdx + 1) =
    findExitVectorized dc .long entryIdx sl tgt := by
  simp only [vecScan]
  rw [firstHit_zip_snd (fun x => decide (x ≤ sl)) (dc.highs.drop (entryIdx + 1))
      (dc.lows.drop (entryIdx + 1)) (by simp [hlen]),
    firstHit_zip_fst (fun x => decide (tgt ≤ x)) (dc.highs.drop (entryIdx + 1))
      (dc.lows.drop (entryIdx + 1)) (by simp [hlen])]
  simp only [findExitVectorized, slIdxOf, tgtIdxOf]
  rw [if_neg hguard]
  by_cases htp : 0 < tgt
  · rcases hfs : firstHit (fun x => decide (x ≤ sl)) (dc.lows.drop (entryIdx + 1)) with _ | a
    · rcases hft : firstHit (fun x => decide (tgt ≤ x)) (dc.highs.drop (entryIdx + 1)) with _ | b
      · simp [hfs, hft, htp]
      · have hnn : (0 : ℤ) ≤ (b : ℤ) + ((entryIdx : ℤ) + 1) := by positivity
        have htn : ((b : ℤ) + ((entryIdx : ℤ) + 1)).toNat = entryIdx + 1 + b := by omega
        simp [hfs, hft, htp, hnn, htn]
    · rcases hft : firstHit (fun x => decide (tgt ≤ x)) (dc.highs.drop (entryIdx + 1)) with _ | b
      · have hnn : (0 : ℤ) ≤ (a : ℤ) + ((entryIdx : ℤ) + 1) := by positivity
        have htn : ((a : ℤ) + ((entryIdx : ℤ) + 1)).toNat = entryIdx + 1 + a := by omega
        simp [hfs, hft, htp, hnn, htn]
      · have hnna : (0 : ℤ) ≤ (a : ℤ) + ((entryIdx : ℤ) + 1) := by positivity
        have hnnb : (0 : ℤ) ≤ (b : ℤ) + ((entryIdx : ℤ) + 1) := by positivity
        have htna : ((a : ℤ) + ((entryIdx : ℤ) + 1)).toNat = entryIdx + 1 + a := by omega
        have htnb : ((b : ℤ) + ((entryIdx : ℤ) + 1)).toNat = entryIdx + 1 + b := by omega
        have hcmp : ((a : ℤ) + ((entryIdx : ℤ) + 1) ≤ (b : ℤ) + ((entryIdx : ℤ) + 1)) ↔
            a ≤ b := by omega
        by_cases hab : a ≤ b
        · simp [hfs, hft, htp, hnna, hnnb, htna, hab, hcmp]
        · simp [hfs, hft, htp, hnna, hnnb, htnb, hab, hcmp]
  · rcases hfs : firstHit (fun x => decide (x ≤ sl)) (dc.lows.drop (entryIdx + 1)) with _ | a
    · simp [hfs, htp]
    · have hnn : (0 : ℤ) ≤ (a : ℤ) + ((entryIdx : ℤ) + 1) := by positivity
      have htn : ((a : ℤ) + ((entryIdx : ℤ) + 1)).toNat = entryIdx + 1 + a := by omega
      simp [hfs, htp, hnn, htn]

lemma vecScan_eq_findExitVectorized_short (dc : DayCache) (entryIdx : ℕ) (sl tgt : ℚ)
    (hguard : ¬ dc.nCandles ≤ entryIdx + 1)
    (hlen : dc.highs.length = dc.lows.length) :
    vecScan (fun p => decide (sl ≤ p.1)) (fun p => decide (p.2 ≤ tgt)) (decide (0 < tgt))
      tgt sl (dc.closes.getD (dc.nCandles - 1) 0) (dc.nCandles - 1)
      ((dc.highs.drop (entryIdx + 1)).zip (dc.lows.drop (entryIdx + 1))) (entryIdx + 1) =
    findExitVectorized dc .short entryIdx sl tgt := by
  simp only [vecScan]
  rw [firstHit_zip_fst (fun x => decide (sl ≤ x)) (dc.highs.drop (entryIdx + 1))
      (dc.lows.drop (entryIdx + 1)) (by simp [hlen]),
    firstHit_zip_snd (fun x => decide (x ≤ tgt)) (dc.highs.drop (entryIdx + 1))
      (dc.lows.drop (entryIdx + 1)) (by simp [hlen])]
  simp only [findExitVectorized, slIdxOf, tgtIdxOf]
  rw [if_neg hguard]
  by_cases htp : 0 < tgt
  · rcases hfs : firstHit (fun x => decide (sl ≤ x)) (dc.highs.drop (entryIdx + 1)) with _ | a
    · rcases hft : firstHit (fun x => decide (x ≤ tgt)) (dc.lows.drop (entryIdx + 1)) with _ | b
      · simp [hfs, hft, htp]
      · have hnn : (0 : ℤ) ≤ (b : ℤ) + ((entryIdx : ℤ) + 1) := by positivity
        have htn : ((b : ℤ) + ((entryIdx : ℤ) + 1)).toNat = entryIdx + 1 + b := by omega
        simp [hfs, hft, htp, hnn, htn]
    · rcases hft : firstHit (fun x => decide (x ≤ tgt)) (dc.lows.drop (entryIdx + 1)) with _ | b
      · have hnn : (0 : ℤ) ≤ (a : ℤ) + ((entryIdx : ℤ) + 1) := by positivity
        have htn : ((a : ℤ) + ((entryIdx : ℤ) + 1)).toNat = entryIdx + 1 + a := by omega
        simp [hfs, hft, htp, hnn, htn]
      · have hnna : (0 : ℤ) ≤ (a : ℤ) + ((entryIdx : ℤ) + 1) := by positivity
        have hnnb : (0 : ℤ) ≤ (b : ℤ) + ((entryIdx : ℤ) + 1) := by positivity
        have htna : ((a : ℤ) + ((entryIdx : ℤ) + 1)).toNat = entryIdx + 1 + a := by omega
        have htnb : ((b : ℤ) + ((entryIdx : ℤ) + 1)).toNat = entryIdx + 1 + b := by omega
        have hcmp : ((a : ℤ) + ((entryIdx : ℤ) + 1) ≤ (b : ℤ) + ((entryIdx : ℤ) + 1)) ↔
            a ≤ b := by omega
        by_cases hab : a ≤ b
        · simp [hfs, hft, htp, hnna, hnnb, htna, hab, hcmp]
        · simp [hfs, hft, htp, hnna, hnnb, htnb, hab, hcmp]
  · rcases hfs : firstHit (fun x => decide (sl ≤ x)) (dc.highs.drop (entryIdx + 1)) with _ | a
    · simp [hfs, htp]
    · have hnn : (0 : ℤ) ≤ (a : ℤ) + ((entryIdx : ℤ) + 1) := by positivity
      have htn : ((a : ℤ) + ((entryIdx : ℤ) + 1)).toNat = entryIdx + 1 + a := by omega
      simp [hfs, htp, hnn, htn]

/-- C7 (amended): when the trailing stop never ratchets — no bar after
the entry bar makes a new favorable peak (LONG: no later high above the
entry bar's high; SHORT: no later low below the entry bar's low) — the
trailing kernel agrees with the vectorized kernel bar-for-bar on the same
initial stop and target: same exit price, exit bar, exit reason and final
stop, for every trailing percentage. -/
theorem trailing_no_new_peak_eq_vectorized (dc : DayCache) (dir : Direction)
    (entryIdx : ℕ) (stopLoss targetPrice trailingPct : ℚ)
    (hlen : dc.highs.length = dc.lows.length)
    (hpkL : dir = .long → ∀ x ∈ dc.highs.drop (entryIdx + 1), x ≤ dc.highs.getD entryIdx 0)
    (hpkS : dir = .short → ∀ x ∈ dc.lows.drop (entryIdx + 1), dc.lows.getD entryIdx 0 ≤ x) :
    findExitTrailing dc dir entryIdx stopLoss targetPrice trailingPct =
      findExitVectorized dc dir entryIdx stopLoss targetPrice := by
  by_cases hguard : dc.nCandles ≤ entryIdx + 1
  · simp only [findExitTrailing, findExitVectorized]
    rw [if_pos hguard, if_pos hguard]
  · cases dir with
    | long =>
      have hres : findExitTrailing dc .long entryIdx stopLoss targetPrice trailingPct =
          findExitTrailingAux .long targetPrice (trailingPct / 100)
            (dc.closes.getD (dc.nCandles - 1) 0) (dc.nCandles - 1)
            ((dc.highs.drop (entryIdx + 1)).zip (dc.lows.drop (entryIdx + 1)))
            (entryIdx + 1) (dc.highs.getD entryIdx 0) stopLoss := by
        simp only [findExitTrailing]
        rw [if_neg hguard]
      rw [hres]
      rw [trailingAux_no_ratchet_long targetPrice (trailingPct / 100)
        (dc.closes.getD (dc.nCandles - 1) 0) (dc.nCandles - 1)
        ((dc.highs.drop (entryIdx + 1)).zip (dc.lows.drop (entryIdx + 1)))
        (entryIdx + 1) (dc.highs.getD entryIdx 0) stopLoss
        (fun p hp => by
          obtain ⟨x, y⟩ := p
          exact hpkL rfl x (List.of_mem_zip hp).1)]
      exact vecScan_eq_findExitVectorized_long dc entryIdx stopLoss targetPrice hguard hlen
    | short =>
      have hres : findExitTrailing dc .short entryIdx stopLoss targetPrice trailingPct =
          findExitTrailingAux .short targetPrice (trailingPct / 100)
            (dc.closes.getD (dc.nCandles - 1) 0) (dc.nCandles - 1)
            ((dc.highs.drop (entryIdx + 1)).zip (dc.lows.drop (entryIdx + 1)))
            (entryIdx + 1) (dc.lows.getD entryIdx 0) stopLoss := by
        simp only [findExitTrailing]
        rw [if_neg hguard]
      rw [hres]
      rw [trailingAux_no_ratchet_short targetPrice (trailingPct / 100)
        (dc.closes.getD (dc.nCandles - 1) 0) (dc.nCandles - 1)
        ((dc.highs.drop (entryIdx + 1)).zip (dc.lows.drop (entryIdx + 1)))
        (entryIdx + 1) (dc.lows.getD entryIdx 0) stopLoss
        (fun p hp => by
          obtain ⟨x, y⟩ := p
          exact hpkS rfl y (List.of_mem_zip hp).2)]
      exact vecScan_eq_findExitVectorized_short dc entryIdx stopLoss targetPrice hguard hlen

/-- C7 counterexample: with `trailing_stop_pct = 0` the trailing stop
ratchets to the running peak (`new_sl = peak * (1 - 0) = peak`), so on a
day whose second bar makes a new high the trailing path exits
`stop_loss` at bar 1 while the FIXED vectorized path time-exits at bar 2
— the exit bar and reason differ both with each path's own initial stop
(trailing: entry price 100; fixed: or_low 98) and with the same initial
stop 98 fed to both kernels. -/
theorem trailing_pct_zero_not_fixed_cex :
    ((findExitTrailing c7dc .long 0 (initialStopLoss .long 100 100 98 0 c7pTrail) 0
        c7pTrail.trailingStopPct).2.1,
      (findExitTrailing c7dc .long 0 (initialStopLoss .long 100 100 98 0 c7pTrail) 0
        c7pTrail.trailingStopPct).2.2.1) ≠
      ((findExitVectorized c7dc .long 0 (initialStopLoss .long 100 100 98 0 c7pFixed) 0).2.1,
        (findExitVectorized c7dc .long 0
          (initialStopLoss .long 100 100 98 0 c7pFixed) 0).2.2.1) ∧
    ((findExitTrailing c7dc .long 0 (initialStopLoss .long 100 100 98 0 c7pFixed) 0 0).2.1,
      (findExitTrailing c7dc .long 0
        (initialStopLoss .long 100 100 98 0 c7pFixed) 0 0).2.2.1) ≠
      ((findExitVectorized c7dc .long 0 (initialStopLoss .long 100 100 98 0 c7pFixed) 0).2.1,
        (findExitVectorized c7dc .long 0
          (initialStopLoss .long 100 100 98 0 c7pFixed) 0).2.2.1) := by
  constructor
  · norm_num [findExitTrailing, findExitTrailingAux, trailUpdateLong, findExitVectorized,
      slIdxOf, tgtIdxOf, firstHit, initialStopLoss, c7dc, c7pTrail, c7pFixed, mkDayCache]
  · norm_num [findExitTrailing, findExitTrailingAux, trailUpdateLong, findExitVectorized,
      slIdxOf, tgtIdxOf, firstHit, initialStopLoss, c7dc, c7pFixed, mkDayCache]

theorem trailing_no_new_peak_eq_vectorized_witness :
    (c7wdc.highs.length = c7wdc.lows.length ∧
      (∀ x ∈ c7wdc.highs.drop 1, x ≤ c7wdc.highs.getD 0 0)) ∧
    findExitTrailing c7wdc .long 0 98 0 0 = findExitVectorized c7wdc .long 0 98 0 :=
  ⟨⟨by norm_num [c7wdc, mkDayCache],
    by norm_num [c7wdc, mkDayCache]⟩,
    trailing_no_new_peak_eq_vectorized c7wdc .long 0 98 0 0
      (by norm_num [c7wdc, mkDayCache])
      (fun _ => by norm_num [c7wdc, mkDayCache])
      (fun h => Direction.noConfusion h)⟩

theorem dayCacheBars_closed_interval_witness :
    (c4dc ∈ buildDayCaches c4sd c4or2 850 900) ∧
    (∃ bars, dictGet c4sd.dayGroups c4dc.dateStr = some bars ∧
      c4dc.highs = (buildDayCacheBars bars 850 900).map Bar.high ∧
      c4dc.lows = (buildDayCacheBars bars 850 900).map Bar.low ∧
      c4dc.closes = (buildDayCacheBars bars 850 900).map Bar.close ∧
      c4dc.volumes = (buildDayCacheBars bars 850 900).map Bar.volume ∧
      c4dc.datetimes = (buildDayCacheBars bars 850 900).map Bar.dt) :=
  ⟨by
    have h : buildDayCaches c4sd c4or2 850 900 = [c4dc] := by
      norm_num [buildDayCaches, c4sd, c4or2, c4dc, c4bars2, dictGet,
        buildDayCacheBars, List.filterMap]
    rw [h]
    exact List.mem_singleton.mpr rfl,
  dayCacheBars_closed_interval.2 c4sd c4or2 850 900 c4dc
    (by
      have h : buildDayCaches c4sd c4or2 850 900 = [c4dc] := by
        norm_num [buildDayCaches, c4sd, c4or2, c4dc, c4bars2, dictGet,
          buildDayCacheBars, List.filterMap]
      rw [h]
      exact List.mem_singleton.mpr rfl)⟩
